import Mathlib

/-
  Verification development for the willydrop sync engine
  (src/sync-engine.js).  The JavaScript code is shallowly embedded:
  JSON-like runtime values become the inductive type JVal, records and
  payloads become association lists from field names to JVal, and
  timestamps become Option Int (milliseconds since the epoch, the value
  of Date.getTime on the normalized ISO string produced by
  normalizeSyncValue; none stands for a missing or unparseable
  timestamp).
-/

namespace Willydrop

/-- Model of a JavaScript runtime value as it appears in records and
payloads: undefined, null, booleans, numbers (modeled as rationals;
the NaN and Infinity cases of IEEE floats are folded into the places
that test Number.isFinite), strings, arrays and plain objects. -/
inductive JVal where
  | undef : JVal
  | null : JVal
  | bool (b : Bool) : JVal
  | num (q : Rat) : JVal
  | str (s : String) : JVal
  | arr (elems : List JVal) : JVal
  | obj (fields : List (String × JVal)) : JVal

/-- Whitespace test used by the model of String.prototype.trim (the
ASCII subset of the JavaScript whitespace set). -/
def isWS (c : Char) : Bool :=
  c = ' ' || c = '\t' || c = '\n' || c = '\r'

/-- Drop leading whitespace characters. -/
def dropWS : List Char → List Char
  | [] => []
  | c :: cs => if isWS c then dropWS cs else c :: cs

/-- Model of String.prototype.trim: drop leading and trailing
whitespace. -/
def jsTrim (s : String) : String :=
  String.mk (((dropWS s.toList).reverse |> dropWS).reverse)

/-- The decimal digit character for n modulo 10. -/
def digitChar (n : Nat) : Char :=
  match n % 10 with
  | 0 => '0' | 1 => '1' | 2 => '2' | 3 => '3' | 4 => '4'
  | 5 => '5' | 6 => '6' | 7 => '7' | 8 => '8' | _ => '9'

/-- Decimal digit list of a natural number (most significant first). -/
def natToDigits (n : Nat) : List Char :=
  if _h : n < 10 then [digitChar n]
  else natToDigits (n / 10) ++ [digitChar (n % 10)]
  decreasing_by exact Nat.div_lt_self (by omega) (by omega)

/-- Decimal rendering of an integer, as String(n) would produce for an
integral JavaScript number. -/
def intToString (i : Int) : String :=
  if i < 0 then "-" ++ String.mk (natToDigits i.natAbs)
  else String.mk (natToDigits i.toNat)

/-- Rendering of a model number as a string.  Integral values render
exactly as in JavaScript; non-integral rationals (which do not occur in
identifier or link positions in the engine) use a numerator/denominator
rendering in place of the IEEE shortest-decimal form. -/
def ratToString (q : Rat) : String :=
  if q.den = 1 then intToString q.num
  else intToString q.num ++ "/" ++ intToString (q.den : Int)

/-- Character-level digit test matching the pattern class backslash-d. -/
def isDigitCh (c : Char) : Bool :=
  48 ≤ c.toNat && c.toNat ≤ 57

/-- Fold a digit list into a natural number. -/
def digitsToNat (cs : List Char) : Nat :=
  cs.foldl (fun acc c => acc * 10 + (c.toNat - 48)) 0

/-- Model of Number(s) on a trimmed non-empty string, restricted to the
plain decimal grammar (optional sign, integer part, optional fraction).
Returns none where JavaScript would produce NaN or a non-finite value;
the hexadecimal and exponent forms of the grammar are not modeled. -/
def jsNumber (s : String) : Option Rat :=
  let cs := s.toList
  let signAndRest : Int × List Char :=
    match cs with
    | '-' :: r => (-1, r)
    | '+' :: r => (1, r)
    | r => (1, r)
  let sign := signAndRest.1
  let rest := signAndRest.2
  let intPart := rest.takeWhile isDigitCh
  let after := rest.drop intPart.length
  match after with
  | [] =>
      if intPart.isEmpty then none
      else some ((sign * digitsToNat intPart : Int) : Rat)
  | '.' :: frac =>
      if frac.all isDigitCh && !(intPart.isEmpty && frac.isEmpty) then
        some ((sign : Rat) *
          ((digitsToNat intPart : Rat) + (digitsToNat frac : Rat) / ((10 : Rat) ^ frac.length)))
      else none
  | _ => none

/-- JavaScript truthiness of a model value. -/
def jsTruthy : JVal → Bool
  | .undef => false
  | .null => false
  | .bool b => b
  | .num q => decide (q ≠ 0)
  | .str s => decide (s ≠ "")
  | .arr _ => true
  | .obj _ => true

/-- Model of the JavaScript or-operator a or b on values (first operand
when truthy, second otherwise). -/
def jsOr (a b : JVal) : JVal :=
  if jsTruthy a then a else b

/-- Association-list payloads: ordered maps from field names to values,
modeling plain JavaScript objects. -/
abbrev Payload := List (String × JVal)

/-- Property read p.k, yielding undefined when the key is absent. -/
def getKey (p : Payload) (k : String) : JVal :=
  match p with
  | [] => .undef
  | e :: rest => if e.fst = k then e.snd else getKey rest k

/-- Property presence test (the key occurs in the object). -/
def hasKey (p : Payload) (k : String) : Bool :=
  match p with
  | [] => false
  | e :: rest => if e.fst = k then true else hasKey rest k

/-- Property write p.k = v: replace the first binding of k in place, or
append a new binding. -/
def setKey (p : Payload) (k : String) (v : JVal) : Payload :=
  match p with
  | [] => [(k, v)]
  | e :: rest => if e.fst = k then (k, v) :: rest else e :: setKey rest k v

/-- Property delete p.k. -/
def deleteKey (p : Payload) (k : String) : Payload :=
  p.filter (fun e => decide (e.fst ≠ k))

/-- The keys of a payload are pairwise distinct (true of every payload
the engine builds through setKey). -/
def NodupKeys (p : Payload) : Prop :=
  (p.map Prod.fst).Nodup

instance (p : Payload) : Decidable (NodupKeys p) :=
  inferInstanceAs (Decidable (p.map Prod.fst).Nodup)

/-- Test for the undefined value. -/
def isUndef : JVal → Bool
  | .undef => true
  | _ => false

/-- Test for the null value (the strict comparison against null used in
the required-field cleanup loops). -/
def isNullV : JVal → Bool
  | .null => true
  | _ => false

mutual

/-- Model of the implicit String(v) conversion (used by the default
array sort comparator). -/
def jsToString : JVal → String
  | .undef => "undefined"
  | .null => "null"
  | .bool b => if b then "true" else "false"
  | .num q => ratToString q
  | .str s => s
  | .arr xs => jsJoinElems xs
  | .obj _ => "[object Object]"
termination_by v => (sizeOf v, 1)

/-- Array join with comma separators, rendering null and undefined
elements as empty, as Array.prototype.toString does. -/
def jsJoinElems : List JVal → String
  | [] => ""
  | [x] => jsElemString x
  | x :: y :: rest => jsElemString x ++ "," ++ jsJoinElems (y :: rest)
termination_by xs => (sizeOf xs, 0)

/-- Rendering of a single array element inside a join. -/
def jsElemString : JVal → String
  | .undef => ""
  | .null => ""
  | v => jsToString v
termination_by v => (sizeOf v, 2)

end

mutual

/-- Model of JSON.stringify on the values that reach the comparison
normalizer.  String escaping of quotes and control characters is not
modeled (record ids and payload strings contain neither), and undefined
renders as null (its behavior inside arrays). -/
def jsonStringify : JVal → String
  | .undef => "null"
  | .null => "null"
  | .bool b => if b then "true" else "false"
  | .num q => ratToString q
  | .str s => "\"" ++ s ++ "\""
  | .arr xs => "[" ++ jsonElems xs ++ "]"
  | .obj fs => "\x7b" ++ jsonFields fs ++ "\x7d"
termination_by v => (sizeOf v, 1)

/-- Comma-joined stringification of array elements. -/
def jsonElems : List JVal → String
  | [] => ""
  | [x] => jsonStringify x
  | x :: y :: rest => jsonStringify x ++ "," ++ jsonElems (y :: rest)
termination_by xs => (sizeOf xs, 0)

/-- Comma-joined stringification of object members. -/
def jsonFields : List (String × JVal) → String
  | [] => ""
  | [(k, v)] => "\"" ++ k ++ "\":" ++ jsonStringify v
  | (k, v) :: e :: rest => "\"" ++ k ++ "\":" ++ jsonStringify v ++ "," ++ jsonFields (e :: rest)
termination_by fs => (sizeOf fs, 0)

end

/-- Stable insertion of an element into a list sorted by the default
string comparator. -/
def insertByStr (x : JVal) : List JVal → List JVal
  | [] => [x]
  | y :: ys => if jsToString x < jsToString y then x :: y :: ys else y :: insertByStr x ys

/-- Model of Array.prototype.sort with the default comparator (elements
compared through their string conversions). -/
def sortByStr (l : List JVal) : List JVal :=
  l.foldr insertByStr []

/-- The normalizeValueForComparison helper of the engine: null and
undefined collapse to null, strings are trimmed, arrays are sorted and
JSON-encoded, objects are JSON-encoded, and primitives pass through. -/
def normalizeValueForComparison : JVal → JVal
  | .null => .null
  | .undef => .null
  | .str s => .str (jsTrim s)
  | .arr xs => .str (jsonStringify (.arr (sortByStr xs)))
  | .obj fs => .str (jsonStringify (.obj fs))
  | v => v

/-- JavaScript strict equality on the primitive values produced by the
comparison normalizer.  Distinct arrays and objects compare unequal
(reference equality); the engine only ever compares normalizer outputs,
which are primitives. -/
def jsStrictEq : JVal → JVal → Bool
  | .undef, .undef => true
  | .null, .null => true
  | .bool a, .bool b => a == b
  | .num a, .num b => decide (a = b)
  | .str a, .str b => a == b
  | _, _ => false

/-- The isBlankValue predicate of the engine: undefined, null,
whitespace-only strings, empty arrays and empty objects are blank. -/
def isBlankValue : JVal → Bool
  | .undef => true
  | .null => true
  | .str s => decide (jsTrim s = "")
  | .arr xs => xs.isEmpty
  | .obj fs => fs.isEmpty
  | _ => false

/-- The normalizeId helper: non-empty trimmed strings pass, numbers are
rendered as strings, everything else becomes null (none). -/
def normalizeId : JVal → Option String
  | .str s => let t := jsTrim s; if t = "" then none else some t
  | .num q => some (ratToString q)
  | _ => none

/-- The normalizeValue helper of the engine: strings are trimmed with
empty results mapping to undefined for required fields and null
otherwise, numeric fields parse trimmed strings (finite number or
null), booleans coerce to 0 or 1 on numeric fields, and other values
pass through.  The JavaScript coercion of arrays and objects through
Number (finite only for degenerate arrays, which never occur on the
declared numeric fields) is modeled as null. -/
def normalizeValue (numericFields requiredFields : List String) (field : String)
    (value : JVal) : JVal :=
  match value with
  | .undef => .undef
  | .null => .null
  | .str s =>
      let trimmed := jsTrim s
      if trimmed = "" then
        if requiredFields.contains field then .undef else .null
      else if numericFields.contains field then
        match jsNumber trimmed with
        | some q => .num q
        | none => .null
      else .str trimmed
  | .num q => .num q
  | .bool b =>
      if numericFields.contains field then .num (if b then 1 else 0) else .bool b
  | v =>
      if numericFields.contains field then .null else v

/-- The removeUndefinedFromPayload helper: drop keys bound to
undefined. -/
def removeUndefinedFromPayload (p : Payload) : Payload :=
  p.filter (fun e => !(isUndef e.snd))

/-- The preparePayloadForUpdate method of the engine, with the
preventBlankOverwrite flag and the allowlist for the (direction,
entity) pair passed explicitly.  Without a target record every cleaned
field is kept (each branch of the creation loop in the source assigns
the field).  Against a target, a field is dropped when its normalized
value equals the normalized current value; blank values are then
subject to the blank-overwrite guard. -/
def preparePayloadForUpdate (preventBlankOverwrite : Bool) (allowlist : List String)
    (payload : Payload) (existingRecord : Option Payload) : Payload :=
  let cleanedPayload := removeUndefinedFromPayload payload
  match existingRecord with
  | none => cleanedPayload
  | some existing =>
      cleanedPayload.filter (fun e =>
        let currentValue := getKey existing e.fst
        if jsStrictEq (normalizeValueForComparison e.snd) (normalizeValueForComparison currentValue) then
          false
        else if preventBlankOverwrite && isBlankValue e.snd then
          if allowlist.contains e.fst then true
          else if !(isBlankValue currentValue) then false
          else true
        else true)

/-- The isAffirmative closure of syncLoadsSupabaseToAirtable: boolean
values pass through, numbers are affirmative when non-zero, strings
when their trimmed lowercase form is yes, y, true or 1. -/
def isAffirmative : JVal → Bool
  | .bool b => b
  | .num q => decide (q ≠ 0)
  | .str s =>
      let n := (jsTrim s).toLower
      n == "yes" || n == "y" || n == "true" || n == "1"
  | _ => false

/-- Insertion-ordered deduplication, the spread of a Set built from a
list. -/
def dedupList (l : List String) : List String :=
  l.foldl (fun acc x => if acc.contains x then acc else acc ++ [x]) []

/-
  Timestamps.  The engine normalizes every sync timestamp through
  normalizeSyncValue to an ISO string, or null when missing or
  unparseable, and then compares Date.getTime values.  The embedding
  works directly with Option Int: some t is a normalized timestamp with
  epoch value t in milliseconds, none is a missing or unparseable one.
-/

/-- The shouldSkipSync method: with both timestamps present the side is
considered unchanged (skip) when lastChanged minus lastSynced is at
most the tolerance; with either missing it is considered changed. -/
def shouldSkipSync (lastChanged lastSynced : Option Int) (toleranceMs : Int) : Bool :=
  match lastChanged, lastSynced with
  | some c, some s => decide (c - s ≤ toleranceMs)
  | _, _ => false

/-- Result of the compareTimestamps method. -/
inductive TsComparison where
  | equal
  | sourceNewer
  | destNewer
  deriving DecidableEq

/-- The compareTimestamps method: missing source with present
destination favors the destination and vice versa; with both present
the absolute difference is compared against the tolerance before the
strict comparisons. -/
def compareTimestamps (source dest : Option Int) (toleranceMs : Int) : TsComparison :=
  match source, dest with
  | none, none => .equal
  | none, some _ => .destNewer
  | some _, none => .sourceNewer
  | some s, some d =>
      if ((s - d).natAbs : Int) ≤ toleranceMs then .equal
      else if s > d then .sourceNewer
      else if s < d then .destNewer
      else .equal

/-- The resolveSyncMarker method: the marker stamped into last_synced
after a successful propagation.  Missing lastChanged yields the current
time, missing lastSynced yields lastChanged, and otherwise lastChanged
wins exactly when it is strictly newer than lastSynced. -/
def resolveSyncMarker (lastChanged lastSynced : Option Int) (now : Int) : Int :=
  match lastChanged with
  | none => now
  | some c =>
      match lastSynced with
      | none => c
      | some s => if c > s then c else now

/-- Outcome of the per-record conflict gate that precedes any write. -/
inductive GateDecision where
  | skippedUnchanged
  | skipDestChanged
  | skipDestNewer
  | proceed
  deriving DecidableEq

/-- The conflict gate of the supabase-to-airtable entity loops
(companies at lines 593 to 608 of sync-engine.js, and identically for
users, cars, locations, bookings and requests): skip when neither side
changed; when both sides changed and an existing record is present,
compare the two last-changed timestamps with the default tolerance of
zero and skip when the destination is newer; otherwise fall through and
proceed.  There is no branch for the only-destination-changed case. -/
def supabaseToAirtableGate (hasTarget : Bool) (srcLC srcLS dstLC dstLS : Option Int)
    (supabaseToleranceMs airtableToleranceMs : Int) : GateDecision :=
  let supabaseHasChanged := !(shouldSkipSync srcLC srcLS supabaseToleranceMs)
  let airtableHasChanged := hasTarget && !(shouldSkipSync dstLC dstLS airtableToleranceMs)
  if !supabaseHasChanged && !airtableHasChanged then .skippedUnchanged
  else if hasTarget && supabaseHasChanged && airtableHasChanged then
    if compareTimestamps srcLC dstLC 0 = .destNewer then .skipDestNewer else .proceed
  else .proceed

/-- The conflict gate of the airtable-to-supabase upsert functions
(companies at lines 1762 to 1782 of sync-engine.js, and identically
for cars, locations, users, loads, bookings and requests): skip when
neither side changed; skip when only the destination (Supabase)
changed; when both changed, compare the two last-changed timestamps
with the airtable tolerance and skip when the destination is newer;
otherwise proceed. -/
def airtableToSupabaseGate (hasTarget : Bool) (srcLC srcLS dstLC dstLS : Option Int)
    (airtableToleranceMs supabaseToleranceMs : Int) : GateDecision :=
  let airtableHasChanged := !(shouldSkipSync srcLC srcLS airtableToleranceMs)
  let supabaseHasChanged := hasTarget && !(shouldSkipSync dstLC dstLS supabaseToleranceMs)
  if !airtableHasChanged && !supabaseHasChanged then .skippedUnchanged
  else if hasTarget && !airtableHasChanged && supabaseHasChanged then .skipDestChanged
  else if hasTarget && airtableHasChanged && supabaseHasChanged then
    if compareTimestamps srcLC dstLC airtableToleranceMs = .destNewer then .skipDestNewer
    else .proceed
  else .proceed

/-
  Per-entity statistics and run tracking.
-/

/-- The per-entity statistics record. -/
structure SyncStats where
  processed : Nat
  created : Nat
  updated : Nat
  unchanged : Nat
  skipped : Nat
  errors : Nat
  deriving DecidableEq

/-- The initializeStats method of the engine: all counters at zero. -/
def initStats : SyncStats :=
  { processed := 0, created := 0, updated := 0, unchanged := 0, skipped := 0, errors := 0 }

/-- A per-record result object as returned by the upsert helpers: an
optional action string (a missing or empty action falls back to the
unknown action in the source). -/
structure SyncResult where
  action : Option String

/-- The applySyncResult method: a null result is ignored; the skipped
action increments only the skipped counter; every other action
increments processed together with exactly one of created, updated or
unchanged. -/
def applySyncResult (stats : SyncStats) (result : Option SyncResult) : SyncStats :=
  match result with
  | none => stats
  | some r =>
      let action :=
        match r.action with
        | some a => if a = "" then "unknown" else a
        | none => "unknown"
      if action = "skipped" then { stats with skipped := stats.skipped + 1 }
      else
        let s := { stats with processed := stats.processed + 1 }
        if action = "created" then { s with created := s.created + 1 }
        else if action = "updated" then { s with updated := s.updated + 1 }
        else { s with unchanged := s.unchanged + 1 }

/-- A per-record outcome inside an entity loop: either a result object
handed to applySyncResult, or a thrown exception, which the loops catch
and count by incrementing only the errors counter. -/
inductive RecordOutcome where
  | result (r : Option SyncResult)
  | exception

/-- One step of statistics accumulation in an entity loop. -/
def applyOutcome (stats : SyncStats) : RecordOutcome → SyncStats
  | .result r => applySyncResult stats r
  | .exception => { stats with errors := stats.errors + 1 }

/-- The statistics accumulated by an entity loop over a sequence of
per-record outcomes, starting from initializeStats. -/
def runOutcomes (outcomes : List RecordOutcome) : SyncStats :=
  outcomes.foldl applyOutcome initStats

/-- Observable events of runSyncWithTracking, in execution order. -/
inductive TrackEvent where
  | createRunAttempt
  | entitySyncCall
  | updateRunAttempt
  | rethrowError
  deriving DecidableEq

/-- Model of the runSyncWithTracking method.  createOk tells whether
the attempt to create the sync_run row produced a row id (its failure
is only logged); syncOutcome is the entity sync function returning
stats or throwing; updateOk tells whether the finishing update attempt
succeeds (its failure is only logged and changes nothing observable,
hence it does not appear in the result).  The function returns the
ordered event trace and the final outcome: the stats on success, or the
re-thrown error, re-thrown only after the finishing update attempt when
a row id exists. -/
def runSyncWithTracking (createOk : Bool) (syncOutcome : Except String SyncStats)
    (updateOk : Bool) : List TrackEvent × Except String SyncStats :=
  let _ := updateOk
  let events := [TrackEvent.createRunAttempt, TrackEvent.entitySyncCall]
  let events := events ++ (if createOk then [TrackEvent.updateRunAttempt] else [])
  match syncOutcome with
  | .error e => (events ++ [TrackEvent.rethrowError], .error e)
  | .ok stats => (events, .ok stats)

/-
  Dates.  The engine renders dates through Date.toISOString; the
  embedding converts epoch milliseconds to a civil UTC date with the
  standard era-based algorithm and renders with fixed-width digit
  extraction.  Years outside 0 to 9999, where toISOString switches to
  the six-digit expanded form, are outside the modeled range.
-/

/-- Civil UTC date (year, month, day) from days since the epoch. -/
def civilFromDays (z0 : Int) : Int × Nat × Nat :=
  let z := z0 + 719468
  let era := z.fdiv 146097
  let doe := (z - era * 146097).toNat
  let yoe := (doe - doe / 1460 + doe / 36524 - doe / 146096) / 365
  let y := (yoe : Int) + era * 400
  let doy := doe - (365 * yoe + yoe / 4 - yoe / 100)
  let mp := (5 * doy + 2) / 153
  let d := doy - (153 * mp + 2) / 5 + 1
  let m := if mp < 10 then mp + 3 else mp - 9
  (if m ≤ 2 then y + 1 else y, m, d)

/-- Days since the epoch from a civil UTC date. -/
def daysFromCivil (y : Int) (m d : Nat) : Int :=
  let yAdj := if m ≤ 2 then y - 1 else y
  let era := yAdj.fdiv 400
  let yoe := (yAdj - era * 400).toNat
  let mp := if m > 2 then m - 3 else m + 9
  let doy := (153 * mp + 2) / 5 + d - 1
  let doe := yoe * 365 + yoe / 4 - yoe / 100 + doy
  era * 146097 + (doe : Int) - 719468

/-- The date part of Date.toISOString (the text before the T). -/
def isoDatePart (ms : Int) : String :=
  let days := ms.fdiv 86400000
  let ymd := civilFromDays days
  let y := ymd.1.toNat
  let m := ymd.2.1
  let d := ymd.2.2
  String.mk [digitChar (y / 1000), digitChar (y / 100), digitChar (y / 10), digitChar y,
    '-', digitChar (m / 10), digitChar m, '-', digitChar (d / 10), digitChar d]

/-- The time part of Date.toISOString for a millisecond offset within
the day (the text from the T on). -/
def isoTimePart (msod : Nat) : String :=
  let hh := msod / 3600000
  let mi := msod % 3600000 / 60000
  let ss := msod % 60000 / 1000
  let mmm := msod % 1000
  String.mk ['T', digitChar (hh / 10), digitChar hh, ':', digitChar (mi / 10), digitChar mi,
    ':', digitChar (ss / 10), digitChar ss, '.',
    digitChar (mmm / 100), digitChar (mmm / 10), digitChar mmm, 'Z']

/-- Model of Date.toISOString on an epoch-millisecond value. -/
def toISOString (ms : Int) : String :=
  isoDatePart ms ++ isoTimePart (ms - ms.fdiv 86400000 * 86400000).toNat

/-- Leap year test of the Gregorian calendar. -/
def isLeapYear (y : Nat) : Bool :=
  (y % 4 = 0 && !(y % 100 = 0 : Bool)) || y % 400 = 0

/-- Days in a month. -/
def daysInMonth (y m : Nat) : Nat :=
  if m = 2 then (if isLeapYear y then 29 else 28)
  else if m = 4 || m = 6 || m = 9 || m = 11 then 30
  else 31

/-- Parse a fixed-width digit group. -/
def parseDigits (cs : List Char) : Option Nat :=
  if cs ≠ [] ∧ cs.all isDigitCh then some (digitsToNat cs) else none

/-- Split a character list at every occurrence of the separator (the
splitOn of strings, carried out on the character level). -/
def splitOnChar (sep : Char) : List Char → List (List Char)
  | [] => [[]]
  | c :: rest =>
      match splitOnChar sep rest with
      | [] => if c = sep then [[], []] else [[c]]
      | g :: gs => if c = sep then [] :: g :: gs else (c :: g) :: gs

/-- Parse the calendar-date production YYYY-MM-DD with range
validation, as the ISO branch of Date.parse does. -/
def parseDatePart (cs : List Char) : Option (Nat × Nat × Nat) :=
  match splitOnChar '-' cs with
  | [ys, ms, ds] =>
      if ys.length = 4 ∧ ms.length = 2 ∧ ds.length = 2 then
        match parseDigits ys, parseDigits ms, parseDigits ds with
        | some y, some m, some d =>
            if 1 ≤ m ∧ m ≤ 12 ∧ 1 ≤ d ∧ d ≤ daysInMonth y m then some (y, m, d) else none
        | _, _, _ => none
      else none
  | _ => none

/-- Parse the time production HH:MM, HH:MM:SS or HH:MM:SS.sss followed
by Z, yielding the millisecond offset within the day. -/
def parseTimePart (cs : List Char) : Option Nat :=
  match cs.reverse with
  | 'Z' :: restRev =>
      let t := restRev.reverse
      let timeOf := fun (hh mi ss mmm : Nat) =>
        if hh ≤ 23 ∧ mi ≤ 59 ∧ ss ≤ 59 then
          some (hh * 3600000 + mi * 60000 + ss * 1000 + mmm)
        else none
      match splitOnChar ':' t with
      | [hs, ms] =>
          if hs.length = 2 ∧ ms.length = 2 then
            match parseDigits hs, parseDigits ms with
            | some hh, some mi => timeOf hh mi 0 0
            | _, _ => none
          else none
      | [hs, ms, rest] =>
          if hs.length = 2 ∧ ms.length = 2 then
            match parseDigits hs, parseDigits ms with
            | some hh, some mi =>
                match splitOnChar '.' rest with
                | [ss] =>
                    if ss.length = 2 then
                      match parseDigits ss with
                      | some sv => timeOf hh mi sv 0
                      | none => none
                    else none
                | [ss, frac] =>
                    if ss.length = 2 ∧ frac.length = 3 then
                      match parseDigits ss, parseDigits frac with
                      | some sv, some fv => timeOf hh mi sv fv
                      | _, _ => none
                    else none
                | _ => none
            | _, _ => none
          else none
      | _ => none
  | _ => none

/-- Model of Date.parse restricted to the ISO-8601 UTC productions the
engine relies on: a calendar date, optionally followed by a
Z-terminated time of day.  Local-time forms, offset forms and the
legacy non-ISO grammars are outside the model and yield none, exactly
as an unparseable string yields NaN. -/
def parseDateMs (s : String) : Option Int :=
  match splitOnChar 'T' s.toList with
  | [datePart] =>
      (parseDatePart datePart).map
        (fun ymd => daysFromCivil (ymd.1 : Int) ymd.2.1 ymd.2.2 * 86400000)
  | [datePart, timePart] =>
      match parseDatePart datePart, parseTimePart timePart with
      | some ymd, some msod =>
          some (daysFromCivil (ymd.1 : Int) ymd.2.1 ymd.2.2 * 86400000 + (msod : Int))
      | _, _ => none
  | _ => none

/-- The formatDateForAirtable method: null and undefined yield null;
numbers are taken as epoch milliseconds; strings are trimmed and parsed
as dates (null when empty or unparseable); other values yield null.
The result is the full ISO string with includeTime, and the text before
the T otherwise. -/
def formatDateForAirtable (value : JVal) (includeTime : Bool) : Option String :=
  match value with
  | .undef => none
  | .null => none
  | .num q =>
      let ms := Int.tdiv q.num (q.den : Int)
      some (if includeTime then toISOString ms else isoDatePart ms)
  | .str s =>
      let trimmed := jsTrim s
      if trimmed = "" then none
      else
        match parseDateMs trimmed with
        | some ms => some (if includeTime then toISOString ms else isoDatePart ms)
        | none => none
  | _ => none

/-- Exact-empty-string test (strict equality with the empty string). -/
def isEmptyStrV : JVal → Bool
  | .str "" => true
  | _ => false

/-- One field of the applyDateOnlyFormatting pass: when the field is
present and its value is neither null, undefined nor the empty string,
replace it with the date-only rendering when the value parses, and
leave it untouched otherwise. -/
def applyDateOnlyStep (p : Payload) (field : String) : Payload :=
  if !(hasKey p field) then p
  else
    let currentValue := getKey p field
    if isNullV currentValue || isUndef currentValue || isEmptyStrV currentValue then p
    else
      match formatDateForAirtable currentValue false with
      | some formatted => setKey p field (.str formatted)
      | none => p

/-- The applyDateOnlyFormatting method over a date-only field set. -/
def applyDateOnlyFormatting (p : Payload) (fieldSet : List String) : Payload :=
  fieldSet.foldl applyDateOnlyStep p

/-- The regular expression of property P6: four digits, dash, two
digits, dash, two digits, anchored on both sides. -/
def matchesDatePattern (s : String) : Bool :=
  match s.toList with
  | [a, b, c, d, e, f, g, h, i, j] =>
      isDigitCh a && isDigitCh b && isDigitCh c && isDigitCh d && e == '-' &&
      isDigitCh f && isDigitCh g && h == '-' && isDigitCh i && isDigitCh j
  | _ => false

/-
  Field tables and entity mapping functions.
-/

/-- Company field list of the source. -/
def COMPANY_FIELDS : List String :=
  ["name", "type", "contact_person", "phone", "email"]

/-- Company numeric field set (empty). -/
def COMPANY_NUMERIC_FIELDS : List String := []

/-- Company required field set. -/
def COMPANY_REQUIRED_FIELDS : List String := ["name"]

/-- Load field list of the source. -/
def LOAD_FIELDS : List String :=
  ["load_number", "carrier_id", "total_distance_km", "estimated_duration_hours",
   "created_at", "updated_at", "load_status", "transport_rate"]

/-- Load numeric field set. -/
def LOAD_NUMERIC_FIELDS : List String :=
  ["total_distance_km", "estimated_duration_hours", "transport_rate"]

/-- Load required field set. -/
def LOAD_REQUIRED_FIELDS : List String := ["load_number"]

/-- Load link fields pointing at companies. -/
def LOAD_COMPANY_LINK_FIELDS : List String := ["carrier_id"]

/-- Load date-only field set. -/
def LOAD_DATE_ONLY_FIELDS : List String := ["created_at"]

/-- Car required field set. -/
def CAR_REQUIRED_FIELDS : List String := ["make", "model"]

/-- Car date-only field set. -/
def CAR_DATE_ONLY_FIELDS : List String :=
  ["earliest_availability_date", "pick_up_date", "delivery_date_actual",
   "delivery_date_customer_view", "delivery_date_quoted"]

/-- String-keyed map lookup (Map.prototype.get, missing keys yield
undefined, here none). -/
def lookupStr : List (String × String) → String → Option String
  | [], _ => none
  | e :: rest, k => if e.fst = k then some e.snd else lookupStr rest k

/-- Lookup in the load-to-cars index. -/
def lookupLinks : List (String × List String) → String → Option (List String)
  | [], _ => none
  | e :: rest, k => if e.fst = k then some e.snd else lookupLinks rest k

/-- The resolveAirtableNameLabel method: prefer the name-label field,
then the id property, then the id inside raw_fields, then the record
id. -/
def resolveAirtableNameLabel (record : Payload) : JVal :=
  let label := getKey record "airtable_id_name_label"
  if !(isUndef label) && !(isNullV label) then label
  else
    let idValue := getKey record "id"
    if !(isUndef idValue) && !(isNullV idValue) then idValue
    else
      match getKey record "raw_fields" with
      | .obj fs => if !(isUndef (getKey fs "id")) then getKey fs "id" else getKey record "airtable_id"
      | _ => getKey record "airtable_id"

/-- The mapCompanyAirtableToSupabase method: the record id, the
normalized company fields (undefined values omitted), and the
normalized name label when defined. -/
def mapCompanyAirtableToSupabase (record : Payload) : Payload :=
  let payload : Payload := [("airtable_id", getKey record "airtable_id")]
  let payload := COMPANY_FIELDS.foldl (fun p field =>
    let value := normalizeValue COMPANY_NUMERIC_FIELDS COMPANY_REQUIRED_FIELDS field
      (getKey record field)
    if isUndef value then p else setKey p field value) payload
  let airtableNameLabel := normalizeValue [] [] "airtable_id_name_label"
    (resolveAirtableNameLabel record)
  if isUndef airtableNameLabel then payload
  else setKey payload "airtable_id_name_label" airtableNameLabel

/-- The mapCompanySupabaseToAirtable method: the supabase_id back-link,
the last_synced marker (the caller passes the resolved marker, with the
record timestamps as fallback), and the normalized company fields. -/
def mapCompanySupabaseToAirtable (company : Payload) (lc ls : Option Int)
    (syncMarker : Option Int) (now : Int) : Payload :=
  let payload : Payload := [("supabase_id", getKey company "id")]
  let marker :=
    match syncMarker with
    | some m => m
    | none => resolveSyncMarker lc ls now
  let payload := setKey payload "last_synced" (.str (toISOString marker))
  COMPANY_FIELDS.foldl (fun p field =>
    let value := normalizeValue COMPANY_NUMERIC_FIELDS COMPANY_REQUIRED_FIELDS field
      (getKey company field)
    if isUndef value then p else setKey p field value) payload

/-- The load_cars computation of mapLoadSupabaseToAirtable: look the
normalized load id up in the index, normalize every linked record id,
discard blank or invalid entries, and deduplicate. -/
def loadCarsValue (loadCarLinksByLoadId : List (String × List String))
    (loadIdValue : JVal) : List String :=
  let linkedCars :=
    match normalizeId loadIdValue with
    | some lid => lookupLinks loadCarLinksByLoadId lid
    | none => none
  let linkedList :=
    match linkedCars with
    | some l => l
    | none => []
  dedupList ((linkedList.filterMap (fun r => normalizeId (.str r))).filter (fun v => !v.isEmpty))

/-- The mapLoadSupabaseToAirtable method: back-link, marker, normalized
load fields, the carrier link translated through the cross-ref (empty
list when missing), the aggregated load_cars link list, date-only
formatting, and finally the removal of the read-only load_number
column. -/
def mapLoadSupabaseToAirtable (load : Payload) (lc ls : Option Int) (syncMarker : Option Int)
    (now : Int) (companyAirtableIdBySupabaseId : List (String × String))
    (loadCarLinksByLoadId : List (String × List String)) : Payload :=
  let payload : Payload := [("supabase_id", getKey load "id")]
  let marker :=
    match syncMarker with
    | some m => m
    | none => resolveSyncMarker lc ls now
  let payload := setKey payload "last_synced" (.str (toISOString marker))
  let payload := LOAD_FIELDS.foldl (fun p field =>
    let value := normalizeValue LOAD_NUMERIC_FIELDS LOAD_REQUIRED_FIELDS field
      (getKey load field)
    if isUndef value then p else setKey p field value) payload
  let payload := LOAD_COMPANY_LINK_FIELDS.foldl (fun p field =>
    match normalizeId (getKey load field) with
    | none => setKey p field (.arr [])
    | some supabaseCompanyId =>
        match lookupStr companyAirtableIdBySupabaseId supabaseCompanyId with
        | some airtableCompanyId => setKey p field (.arr [.str airtableCompanyId])
        | none => setKey p field (.arr [])) payload
  let payload := setKey payload "load_cars"
    (.arr ((loadCarsValue loadCarLinksByLoadId (getKey load "id")).map .str))
  let payload := applyDateOnlyFormatting payload LOAD_DATE_ONLY_FIELDS
  deleteKey payload "load_number"

/-
  The load_cars index built by syncLoadsSupabaseToAirtable from the
  load_cars join rows (the per-load latest-change map built in the same
  loop feeds only the timestamp aggregation and is not modeled here).
-/

/-- One load_cars join row with the property aliases the source
consults. -/
structure LoadCarRow where
  load_id : JVal
  loadId : JVal
  is_assigned : JVal
  car_airtable_id : JVal
  airtable_car_id : JVal
  airtable_carId : JVal
  car_id : JVal
  carId : JVal

/-- The normalized load id of a join row. -/
def rowLoadId (row : LoadCarRow) : Option String :=
  normalizeId (jsOr row.load_id row.loadId)

/-- The sheet car id a join row resolves to: the embedded airtable car
id variants first, then the cross-ref lookup of the relational car
id. -/
def rowResolvedCarId (carAirtableIdBySupabaseId : List (String × String))
    (row : LoadCarRow) : Option String :=
  let airtableCarIdFromRow :=
    normalizeId (jsOr row.car_airtable_id (jsOr row.airtable_car_id row.airtable_carId))
  match airtableCarIdFromRow with
  | some s => some s
  | none =>
      match normalizeId (jsOr row.car_id row.carId) with
      | some carSupabaseId => lookupStr carAirtableIdBySupabaseId carSupabaseId
      | none => none

/-- Read the link list of a load id from the index under construction
(missing entries read as the freshly initialized empty list). -/
def getLinks (m : List (String × List String)) (k : String) : List String :=
  (lookupLinks m k).getD []

/-- Write the link list of a load id into the index under
construction. -/
def setLinks : List (String × List String) → String → List String → List (String × List String)
  | [], k, v => [(k, v)]
  | e :: rest, k, v => if e.fst = k then (k, v) :: rest else e :: setLinks rest k v

/-- One join row of the index-building loop: rows without a load id or
without an affirmative is_assigned contribute nothing; rows resolving
to no car id contribute nothing; otherwise the car id is appended to
the list of its load unless already present. -/
def processLoadCarRow (carAirtableIdBySupabaseId : List (String × String))
    (m : List (String × List String)) (row : LoadCarRow) : List (String × List String) :=
  match rowLoadId row with
  | none => m
  | some loadId =>
      if !(isAffirmative row.is_assigned) then m
      else
        match rowResolvedCarId carAirtableIdBySupabaseId row with
        | none => m
        | some airtableCarId =>
            let linkedCars := getLinks m loadId
            if linkedCars.contains airtableCarId then m
            else setLinks m loadId (linkedCars ++ [airtableCarId])

/-- The loadCarLinksByLoadId index built from all join rows. -/
def buildLoadCarLinks (rows : List LoadCarRow)
    (carAirtableIdBySupabaseId : List (String × String)) : List (String × List String) :=
  rows.foldl (processLoadCarRow carAirtableIdBySupabaseId) []

/-
  Per-record effect traces of the company sync paths.  The remote calls
  a record can trigger are modeled as an ordered list of writes; reads
  (the pre-fetched record lists and the target lookups) are passed in
  as arguments.
-/

/-- A remote write issued while processing one record. -/
inductive SyncWrite where
  | airtableCreate (payload : Payload)
  | airtableUpdate (payload : Payload)
  | supabaseCreate (payload : Payload)
  | supabaseUpdate (payload : Payload)

/-- The per-record body of syncCompaniesSupabaseToAirtable (lines 582
to 644 of sync-engine.js) as an effect trace: the conflict gate, then
either nothing (skip paths), or the prepared create or update against
Airtable followed by the last_synced stamp written back to the Supabase
source record.  The in-memory index refreshes and the
ensureSupabaseAirtableMetadata back-fill (which never touches
last_synced on the source) are not modeled.  The second component is
the action recorded into the statistics. -/
def companySupabaseToAirtableStep (preventBlank : Bool) (allowlist : List String)
    (supabaseToleranceMs airtableToleranceMs : Int) (now : Int)
    (company : Payload) (companyLC companyLS : Option Int)
    (existingRecord : Option Payload) (existingLC existingLS : Option Int) :
    List SyncWrite × String :=
  let syncMarker := resolveSyncMarker companyLC companyLS now
  let airtablePayload := mapCompanySupabaseToAirtable company companyLC companyLS
    (some syncMarker) now
  match supabaseToAirtableGate existingRecord.isSome companyLC companyLS existingLC existingLS
      supabaseToleranceMs airtableToleranceMs with
  | .skippedUnchanged => ([], "skipped")
  | .skipDestChanged => ([], "skipped")
  | .skipDestNewer => ([], "unchanged")
  | .proceed =>
      match existingRecord with
      | some existing =>
          let updatePayload := preparePayloadForUpdate preventBlank allowlist airtablePayload
            (some existing)
          let writes :=
            if updatePayload.length > 0 then [SyncWrite.airtableUpdate updatePayload] else []
          (writes ++ [SyncWrite.supabaseUpdate [("last_synced", .str (toISOString syncMarker))]],
            if updatePayload.length > 0 then "updated" else "unchanged")
      | none =>
          let createPayload := preparePayloadForUpdate preventBlank allowlist airtablePayload none
          ([SyncWrite.airtableCreate createPayload,
            SyncWrite.supabaseUpdate [("last_synced", .str (toISOString syncMarker))]],
            "created")

/-- The required-field validation of ensureRequiredFields: every
required field must be bound to something other than undefined and
null. -/
def ensureRequiredFieldsCheck (payload : Payload) (requiredFields : List String) : Bool :=
  requiredFields.all (fun field =>
    !(isUndef (getKey payload field)) && !(isNullV (getKey payload field)))

/-- The upsertCompanyFromAirtable method (lines 1735 to 1834 of
sync-engine.js) as an effect trace, with the target company lookup
passed in.  The conflict gate can return without any write; against a
target the prepared update is written to Supabase when non-empty,
followed by the supabase_id back-link onto the Airtable record when it
is missing or stale; without a target the validated create payload is
written to Supabase followed by the back-link carrying the id Supabase
assigned (passed in as createdId).  A failed required-field validation
is the thrown MissingRequiredField error.  No branch ever writes
last_synced onto the Airtable source record. -/
def upsertCompanyFromAirtableStep (preventBlank : Bool) (allowlist : List String)
    (airtableToleranceMs supabaseToleranceMs : Int)
    (record : Payload) (recordLC recordLS : Option Int)
    (targetCompany : Option Payload) (targetLC targetLS : Option Int)
    (createdId : JVal) : Except String (List SyncWrite × String) :=
  let rawSupabasePayload := mapCompanyAirtableToSupabase record
  match airtableToSupabaseGate targetCompany.isSome recordLC recordLS targetLC targetLS
      airtableToleranceMs supabaseToleranceMs with
  | .skippedUnchanged => .ok ([], "unchanged")
  | .skipDestChanged => .ok ([], "unchanged")
  | .skipDestNewer => .ok ([], "unchanged")
  | .proceed =>
      let cleanedPayload := rawSupabasePayload
      match targetCompany with
      | some target =>
          let updatePayload := preparePayloadForUpdate preventBlank allowlist cleanedPayload
            (some target)
          let writes :=
            if updatePayload.length > 0 then [SyncWrite.supabaseUpdate updatePayload] else []
          let needsLinkUpdate := !(jsTruthy (getKey record "supabase_id")) ||
            !(jsStrictEq (getKey record "supabase_id") (getKey target "id"))
          let writes := writes ++
            (if needsLinkUpdate then
              [SyncWrite.airtableUpdate [("supabase_id", getKey target "id")]] else [])
          let action := if updatePayload.length > 0 || needsLinkUpdate then "updated"
            else "unchanged"
          .ok (writes, action)
      | none =>
          let createPayload := preparePayloadForUpdate preventBlank allowlist cleanedPayload none
          if !(ensureRequiredFieldsCheck createPayload COMPANY_REQUIRED_FIELDS) then
            .error "MissingRequiredField"
          else
            let createPayload :=
              match normalizeId (getKey record "supabase_id") with
              | some referencedSupabaseId => setKey createPayload "id" (.str referencedSupabaseId)
              | none => createPayload
            .ok ([SyncWrite.supabaseCreate createPayload,
              SyncWrite.airtableUpdate [("supabase_id", createdId)]], "created")

/-- The null-required-field cleanup of upsertCarFromAirtable (lines
1610 to 1615 of sync-engine.js): delete every required field bound to
null from the copied payload. -/
def cleanRequiredNullFields (payload : Payload) (requiredFields : List String) : Payload :=
  requiredFields.foldl (fun p field =>
    if isNullV (getKey p field) then deleteKey p field else p) payload

/-- The payload of a write, whichever store it targets. -/
def writePayload : SyncWrite → Payload
  | .airtableCreate p => p
  | .airtableUpdate p => p
  | .supabaseCreate p => p
  | .supabaseUpdate p => p

/-- Whether a write targets the Airtable store. -/
def isAirtableWrite : SyncWrite → Bool
  | .airtableCreate _ => true
  | .airtableUpdate _ => true
  | _ => false

/-- Whether a write would stamp last_synced on the Airtable side. -/
def stampsAirtableLastSynced (w : SyncWrite) : Bool :=
  isAirtableWrite w && hasKey (writePayload w) "last_synced"

/-- The list of sheet car ids carried by the load_cars key of a
payload (the observable content of the emitted link list). -/
def payloadLoadCars (p : Payload) : List String :=
  match getKey p "load_cars" with
  | .arr xs => xs.filterMap (fun v => match v with | .str s => some s | _ => none)
  | _ => []

/-
  Infrastructure lemmas about the object model.
-/

theorem toList_mk (l : List Char) : (String.mk l).toList = l := rfl

theorem getKey_setKey_self (p : Payload) (k : String) (v : JVal) :
    getKey (setKey p k v) k = v := by
  induction p with
  | nil => simp [setKey, getKey]
  | cons e rest ih =>
      by_cases h : e.fst = k
      · simp [setKey, getKey, h]
      · simp [setKey, getKey, h, ih]

theorem getKey_setKey_ne (p : Payload) (k k' : String) (v : JVal) (h : k' ≠ k) :
    getKey (setKey p k v) k' = getKey p k' := by
  induction p with
  | nil =>
      simp only [setKey, getKey]
      rw [if_neg (fun hh => h hh.symm)]
  | cons e rest ih =>
      by_cases h1 : e.fst = k
      · simp only [setKey, if_pos h1, getKey]
        rw [if_neg (fun hh => h hh.symm), if_neg (fun hh => h (h1 ▸ hh).symm)]
      · simp only [setKey, if_neg h1, getKey]
        by_cases h2 : e.fst = k'
        · rw [if_pos h2, if_pos h2]
        · rw [if_neg h2, if_neg h2, ih]

theorem hasKey_iff_exists (p : Payload) (k : String) :
    hasKey p k = true ↔ ∃ v, (k, v) ∈ p := by
  induction p with
  | nil => simp [hasKey]
  | cons e rest ih =>
      by_cases h : e.fst = k
      · constructor
        · intro _
          exact ⟨e.snd, by rw [show (k, e.snd) = e from by rw [← h]]; exact List.mem_cons_self e rest⟩
        · intro _
          simp [hasKey, h]
      · constructor
        · intro hk
          simp only [hasKey, if_neg h] at hk
          obtain ⟨v, hv⟩ := ih.mp hk
          exact ⟨v, List.mem_cons_of_mem e hv⟩
        · rintro ⟨v, hv⟩
          rcases List.mem_cons.mp hv with h1 | h1
          · exact absurd (congrArg Prod.fst h1).symm h
          · simp only [hasKey, if_neg h]
            exact ih.mpr ⟨v, h1⟩

theorem getKey_eq_of_mem_nodup (p : Payload) (k : String) (v : JVal)
    (hmem : (k, v) ∈ p) (hnd : NodupKeys p) : getKey p k = v := by
  induction p with
  | nil => cases hmem
  | cons e rest ih =>
      rcases List.mem_cons.mp hmem with h1 | h1
      · simp [getKey, ← h1]
      · have hk : e.fst ≠ k := by
          intro hh
          have : k ∈ rest.map Prod.fst := List.mem_map_of_mem Prod.fst h1
          have hnd' := (List.nodup_cons.mp hnd).1
          exact hnd' (hh ▸ this)
        simp only [getKey, if_neg hk]
        exact ih h1 (List.nodup_cons.mp hnd).2

theorem getKey_eq_undef_of_not_hasKey (p : Payload) (k : String)
    (h : hasKey p k = false) : getKey p k = .undef := by
  induction p with
  | nil => rfl
  | cons e rest ih =>
      by_cases h1 : e.fst = k
      · simp [hasKey, h1] at h
      · simp only [hasKey, if_neg h1] at h
        simp only [getKey, if_neg h1]
        exact ih h

theorem hasKey_deleteKey_self (p : Payload) (k : String) :
    hasKey (deleteKey p k) k = false := by
  induction p with
  | nil => rfl
  | cons e rest ih =>
      by_cases h : e.fst = k
      · simpa [deleteKey, h] using ih
      · simpa [deleteKey, hasKey, h] using ih

theorem getKey_deleteKey_ne (p : Payload) (k k' : String) (h : k' ≠ k) :
    getKey (deleteKey p k) k' = getKey p k' := by
  induction p with
  | nil => rfl
  | cons e rest ih =>
      by_cases h1 : e.fst = k
      · have hne : e.fst ≠ k' := fun hh => h (hh.symm.trans h1)
        rw [show deleteKey (e :: rest) k = deleteKey rest k from by
          simp [deleteKey, List.filter_cons, h1]]
        rw [ih]
        simp [getKey, hne]
      · rw [show deleteKey (e :: rest) k = e :: deleteKey rest k from by
          simp [deleteKey, List.filter_cons, h1]]
        by_cases h2 : e.fst = k'
        · simp [getKey, h2]
        · simp [getKey, h2, ih]

theorem lookupLinks_getD_eq_getLinks (m : List (String × List String)) (k : String) :
    (lookupLinks m k).getD [] = getLinks m k := rfl

theorem getLinks_setLinks_self (m : List (String × List String)) (k : String)
    (v : List String) : getLinks (setLinks m k v) k = v := by
  induction m with
  | nil => simp [setLinks, getLinks, lookupLinks]
  | cons e rest ih =>
      by_cases h : e.fst = k
      · simp [setLinks, getLinks, lookupLinks, h]
      · simpa [setLinks, getLinks, lookupLinks, h] using ih

theorem getLinks_setLinks_ne (m : List (String × List String)) (k k' : String)
    (v : List String) (h : k' ≠ k) : getLinks (setLinks m k v) k' = getLinks m k' := by
  induction m with
  | nil =>
      simp only [setLinks, getLinks, lookupLinks]
      rw [if_neg (fun hh => h hh.symm)]
  | cons e rest ih =>
      by_cases h1 : e.fst = k
      · simp only [setLinks, if_pos h1, getLinks, lookupLinks]
        rw [if_neg (fun hh => h hh.symm), if_neg (fun hh => h (h1 ▸ hh).symm)]
      · simp only [setLinks, if_neg h1, getLinks, lookupLinks]
        by_cases h2 : e.fst = k'
        · rw [if_pos h2, if_pos h2]
        · rw [if_neg h2, if_neg h2]
          exact ih

theorem mem_dedupList_aux (l : List String) (acc : List String) (x : String) :
    x ∈ l.foldl (fun acc y => if acc.contains y then acc else acc ++ [y]) acc ↔
      x ∈ acc ∨ x ∈ l := by
  induction l generalizing acc with
  | nil => simp
  | cons y rest ih =>
      simp only [List.foldl_cons]
      by_cases h : acc.contains y
      · rw [if_pos h, ih]
        constructor
        · rintro (h1 | h1)
          · exact Or.inl h1
          · exact Or.inr (List.mem_cons_of_mem y h1)
        · rintro (h1 | h1)
          · exact Or.inl h1
          · rcases List.mem_cons.mp h1 with h2 | h2
            · exact Or.inl (h2 ▸ List.mem_of_elem_eq_true h)
            · exact Or.inr h2
      · rw [if_neg h, ih]
        constructor
        · rintro (h1 | h1)
          · rcases List.mem_append.mp h1 with h2 | h2
            · exact Or.inl h2
            · exact Or.inr (List.mem_cons.mpr (Or.inl (List.mem_singleton.mp h2)))
          · exact Or.inr (List.mem_cons_of_mem y h1)
        · rintro (h1 | h1)
          · exact Or.inl (List.mem_append.mpr (Or.inl h1))
          · rcases List.mem_cons.mp h1 with h2 | h2
            · exact Or.inl (List.mem_append.mpr (Or.inr (h2 ▸ List.mem_singleton_self x)))
            · exact Or.inr h2

theorem mem_dedupList (l : List String) (x : String) : x ∈ dedupList l ↔ x ∈ l := by
  rw [dedupList, mem_dedupList_aux]
  simp

theorem nodup_dedupList_aux (l : List String) (acc : List String) (hacc : acc.Nodup) :
    (l.foldl (fun acc y => if acc.contains y then acc else acc ++ [y]) acc).Nodup := by
  induction l generalizing acc with
  | nil => simpa
  | cons y rest ih =>
      simp only [List.foldl_cons]
      by_cases h : acc.contains y
      · rw [if_pos h]; exact ih acc hacc
      · rw [if_neg h]
        refine ih _ ?_
        have hy : y ∉ acc := fun hmem => h (List.elem_eq_true_of_mem hmem)
        simpa [List.concat_eq_append] using List.Nodup.concat hy hacc

theorem nodup_dedupList (l : List String) : (dedupList l).Nodup :=
  nodup_dedupList_aux l [] List.nodup_nil

/-
  Lemmas about trimming and the digit renderings.
-/

theorem dropWS_eq_self_of_all (l : List Char) (h : ∀ c ∈ l, isWS c = false) :
    dropWS l = l := by
  cases l with
  | nil => rfl
  | cons c cs => simp [dropWS, h c (List.mem_cons_self c cs)]

theorem dropWS_idem (l : List Char) : dropWS (dropWS l) = dropWS l := by
  induction l with
  | nil => rfl
  | cons c cs ih =>
      by_cases h : isWS c
      · simpa [dropWS, h] using ih
      · simp [dropWS, h]

theorem dropWS_head_not_ws (l : List Char) (c : Char) (h : (dropWS l).head? = some c) :
    isWS c = false := by
  induction l with
  | nil => cases h
  | cons d ds ih =>
      by_cases h1 : isWS d
      · exact ih (by simpa [dropWS, h1] using h)
      · simp only [dropWS, if_neg h1, List.head?_cons, Option.some.injEq] at h
        simpa [← h] using eq_false_of_ne_true h1

theorem dropWS_eq_self_of_head (l : List Char)
    (h : ∀ c, l.head? = some c → isWS c = false) : dropWS l = l := by
  cases l with
  | nil => rfl
  | cons c cs => simp [dropWS, h c rfl]

theorem dropWS_suffix (l : List Char) : dropWS l <:+ l := by
  induction l with
  | nil => exact List.suffix_refl []
  | cons c cs ih =>
      by_cases h : isWS c
      · simpa [dropWS, h] using ih.trans (List.suffix_cons c cs)
      · simp [dropWS, h]

theorem mk_toList (s : String) : String.mk s.toList = s := rfl

theorem jsTrim_eq_self_of_all (s : String) (h : ∀ c ∈ s.toList, isWS c = false) :
    jsTrim s = s := by
  have h1 : dropWS s.toList = s.toList := dropWS_eq_self_of_all _ h
  have h2 : dropWS s.toList.reverse = s.toList.reverse :=
    dropWS_eq_self_of_all _ (fun c hc => h c (List.mem_reverse.mp hc))
  calc jsTrim s = String.mk (dropWS ((dropWS s.toList).reverse)).reverse := rfl
    _ = String.mk s.toList := by rw [h1, h2, List.reverse_reverse]
    _ = s := mk_toList s

theorem jsTrim_idem (s : String) : jsTrim (jsTrim s) = jsTrim s := by
  set A := dropWS s.toList with hA
  set B := dropWS A.reverse with hB
  have htl : (jsTrim s).toList = B.reverse := rfl
  by_cases hBnil : B = []
  · have : jsTrim s = "" := by
      have : (jsTrim s).toList = [] := by rw [htl, hBnil]; rfl
      calc jsTrim s = String.mk (jsTrim s).toList := (mk_toList _).symm
        _ = String.mk [] := by rw [this]
        _ = "" := rfl
    rw [this]
    rfl
  · -- the head of the reversed kept segment is the head of A, hence not whitespace
    have hBsuf : B <:+ A.reverse := hB ▸ dropWS_suffix A.reverse
    have hlast : B.getLast? = A.reverse.getLast? := by
      obtain ⟨t, ht⟩ := hBsuf
      rw [← ht, List.getLast?_append_of_ne_nil t hBnil]
    have hArev : A.reverse.getLast? = A.head? := by
      rw [List.getLast?_eq_head?_reverse, List.reverse_reverse]
    have hd1 : dropWS B.reverse = B.reverse := by
      apply dropWS_eq_self_of_head
      intro c hc
      rw [← List.getLast?_eq_head?_reverse, hlast, hArev] at hc
      have : (dropWS s.toList).head? = some c := by rw [← hA]; exact hc
      exact dropWS_head_not_ws _ _ this
    have hd2 : dropWS B = B := by rw [hB, dropWS_idem]
    calc jsTrim (jsTrim s)
        = String.mk (dropWS ((dropWS (jsTrim s).toList).reverse)).reverse := rfl
      _ = String.mk (dropWS ((dropWS B.reverse).reverse)).reverse := by rw [htl]
      _ = String.mk B.reverse := by rw [hd1, List.reverse_reverse, hd2]
      _ = String.mk (jsTrim s).toList := by rw [htl]
      _ = jsTrim s := mk_toList _

theorem isWS_digitChar (n : Nat) : isWS (digitChar n) = false := by
  unfold digitChar
  split <;> rfl

theorem isDigitCh_digitChar (n : Nat) : isDigitCh (digitChar n) = true := by
  unfold digitChar
  split <;> rfl

theorem natToDigits_ne_nil (n : Nat) : natToDigits n ≠ [] := by
  rw [natToDigits]
  split
  · simp
  · simp

theorem mem_natToDigits_digit (n : Nat) (c : Char) (h : c ∈ natToDigits n) :
    ∃ k, c = digitChar k := by
  induction n using Nat.strong_induction_on with
  | _ n ih =>
      rw [natToDigits] at h
      split at h
      · exact ⟨n, List.mem_singleton.mp h⟩
      · rcases List.mem_append.mp h with h1 | h1
        · exact ih (n / 10) (Nat.div_lt_self (by omega) (by omega)) h1
        · exact ⟨n % 10, List.mem_singleton.mp h1⟩

theorem mem_intToString_not_ws (i : Int) (c : Char) (h : c ∈ (intToString i).toList) :
    isWS c = false := by
  unfold intToString at h
  split at h
  · rw [show ("-" ++ String.mk (natToDigits i.natAbs)).toList =
        '-' :: natToDigits i.natAbs from rfl] at h
    rcases List.mem_cons.mp h with h1 | h1
    · rw [h1]; rfl
    · obtain ⟨k, rfl⟩ := mem_natToDigits_digit _ _ h1
      exact isWS_digitChar k
  · rw [toList_mk] at h
    obtain ⟨k, rfl⟩ := mem_natToDigits_digit _ _ h
    exact isWS_digitChar k

theorem intToString_ne_empty (i : Int) : intToString i ≠ "" := by
  intro hcon
  have h : (intToString i).toList = [] := by rw [hcon]; rfl
  unfold intToString at h
  split at h
  · exact absurd h (by simp [String.toList])
  · rw [toList_mk] at h
    exact natToDigits_ne_nil _ h

theorem mem_ratToString_not_ws (q : Rat) (c : Char) (h : c ∈ (ratToString q).toList) :
    isWS c = false := by
  unfold ratToString at h
  split at h
  · exact mem_intToString_not_ws _ _ h
  · rw [show (intToString q.num ++ "/" ++ intToString (q.den : Int)).toList =
        (intToString q.num).toList ++ '/' :: (intToString (q.den : Int)).toList from by
      simp [String.toList]] at h
    rcases List.mem_append.mp h with h1 | h1
    · exact mem_intToString_not_ws _ _ h1
    · rcases List.mem_cons.mp h1 with h2 | h2
      · rw [h2]; rfl
      · exact mem_intToString_not_ws _ _ h2

theorem jsTrim_ratToString (q : Rat) : jsTrim (ratToString q) = ratToString q :=
  jsTrim_eq_self_of_all _ (mem_ratToString_not_ws q)

theorem ratToString_ne_empty (q : Rat) : ratToString q ≠ "" := by
  unfold ratToString
  split
  · exact intToString_ne_empty _
  · intro hcon
    have h : ((intToString q.num ++ "/" ++ intToString (q.den : Int))).toList = [] := by
      rw [hcon]; rfl
    rw [show (intToString q.num ++ "/" ++ intToString (q.den : Int)).toList =
        (intToString q.num).toList ++ '/' :: (intToString (q.den : Int)).toList from by
      simp [String.toList]] at h
    simp at h

theorem normalizeId_str_trim (s : String) (t : String)
    (h : normalizeId (.str s) = some t) : jsTrim t = t ∧ t ≠ "" := by
  simp only [normalizeId] at h
  split at h
  · cases h
  · rename_i hne
    have ht : t = jsTrim s := (Option.some.injEq _ _ ▸ h).symm
    subst ht
    exact ⟨jsTrim_idem s, hne⟩

theorem normalizeId_idem (v : JVal) (s : String) (h : normalizeId v = some s) :
    normalizeId (.str s) = some s := by
  cases v with
  | str s0 =>
      obtain ⟨h1, h2⟩ := normalizeId_str_trim s0 s h
      simp [normalizeId, h1, h2]
  | num q =>
      simp only [normalizeId, Option.some.injEq] at h
      subst h
      simp [normalizeId, jsTrim_ratToString, ratToString_ne_empty]
  | undef => cases h
  | null => cases h
  | bool b => cases h
  | arr xs => cases h
  | obj fs => cases h

/-
  Lemmas about date-only formatting.
-/

theorem matchesDatePattern_mk (c1 c2 c3 c4 c6 c7 c9 c10 : Char)
    (h1 : isDigitCh c1 = true) (h2 : isDigitCh c2 = true) (h3 : isDigitCh c3 = true)
    (h4 : isDigitCh c4 = true) (h6 : isDigitCh c6 = true) (h7 : isDigitCh c7 = true)
    (h9 : isDigitCh c9 = true) (h10 : isDigitCh c10 = true) :
    matchesDatePattern (String.mk [c1, c2, c3, c4, '-', c6, c7, '-', c9, c10]) = true := by
  simp [matchesDatePattern, toList_mk, h1, h2, h3, h4, h6, h7, h9, h10]

theorem matches_isoDatePart (ms : Int) : matchesDatePattern (isoDatePart ms) = true := by
  exact matchesDatePattern_mk _ _ _ _ _ _ _ _
    (isDigitCh_digitChar _) (isDigitCh_digitChar _) (isDigitCh_digitChar _)
    (isDigitCh_digitChar _) (isDigitCh_digitChar _) (isDigitCh_digitChar _)
    (isDigitCh_digitChar _) (isDigitCh_digitChar _)

theorem formatDate_dateOnly_matches (v : JVal) (s : String)
    (h : formatDateForAirtable v false = some s) : matchesDatePattern s = true := by
  cases v with
  | undef => cases h
  | null => cases h
  | bool b => cases h
  | arr xs => cases h
  | obj fs => cases h
  | num q =>
      simp only [formatDateForAirtable, if_neg (Bool.false_ne_true), Option.some.injEq] at h
      rw [← h]
      exact matches_isoDatePart _
  | str s0 =>
      simp only [formatDateForAirtable] at h
      split at h
      · cases h
      · split at h
        · rename_i ms hms
          simp only [if_neg (Bool.false_ne_true), Option.some.injEq] at h
          rw [← h]
          exact matches_isoDatePart _
        · cases h

theorem getKey_applyDateOnlyStep (p : Payload) (field k : String) :
    getKey (applyDateOnlyStep p field) k = getKey p k ∨
    ∃ s, getKey (applyDateOnlyStep p field) k = .str s ∧ matchesDatePattern s = true := by
  unfold applyDateOnlyStep
  split
  · left; rfl
  · dsimp only
    split
    · left; rfl
    · split
      · rename_i formatted hfmt
        by_cases hk : k = field
        · right
          refine ⟨formatted, ?_, formatDate_dateOnly_matches _ _ hfmt⟩
          rw [hk, getKey_setKey_self]
        · left
          exact getKey_setKey_ne _ _ _ _ hk
      · left; rfl

theorem getKey_applyDateOnlyStep_ne (p : Payload) (field k : String) (h : k ≠ field) :
    getKey (applyDateOnlyStep p field) k = getKey p k := by
  unfold applyDateOnlyStep
  split
  · rfl
  · dsimp only
    split
    · rfl
    · split
      · exact getKey_setKey_ne _ _ _ _ h
      · rfl

theorem getKey_applyDateOnlyFormatting (p : Payload) (fields : List String) (k : String) :
    getKey (applyDateOnlyFormatting p fields) k = getKey p k ∨
    ∃ s, getKey (applyDateOnlyFormatting p fields) k = .str s ∧ matchesDatePattern s = true := by
  induction fields generalizing p with
  | nil => left; rfl
  | cons f rest ih =>
      have hfold : applyDateOnlyFormatting p (f :: rest) =
          applyDateOnlyFormatting (applyDateOnlyStep p f) rest := rfl
      rcases ih (applyDateOnlyStep p f) with h1 | h1
      · rcases getKey_applyDateOnlyStep p f k with h2 | h2
        · left; rw [hfold, h1, h2]
        · right
          obtain ⟨s, hs1, hs2⟩ := h2
          exact ⟨s, by rw [hfold, h1, hs1], hs2⟩
      · right
        obtain ⟨s, hs1, hs2⟩ := h1
        exact ⟨s, by rw [hfold]; exact hs1, hs2⟩

theorem getKey_applyDateOnly_not_mem (p : Payload) (fields : List String) (k : String)
    (h : k ∉ fields) : getKey (applyDateOnlyFormatting p fields) k = getKey p k := by
  induction fields generalizing p with
  | nil => rfl
  | cons f rest ih =>
      have hk : k ≠ f := fun hh => h (hh ▸ List.mem_cons_self f rest)
      have hrest : k ∉ rest := fun hh => h (List.mem_cons_of_mem f hh)
      calc getKey (applyDateOnlyFormatting p (f :: rest)) k
          = getKey (applyDateOnlyFormatting (applyDateOnlyStep p f) rest) k := rfl
        _ = getKey (applyDateOnlyStep p f) k := ih _ hrest
        _ = getKey p k := getKey_applyDateOnlyStep_ne p f k hk

/-
  Lemmas about the load_cars index.
-/

theorem lookupStr_mem (m : List (String × String)) (k v : String)
    (h : lookupStr m k = some v) : ∃ kk, (kk, v) ∈ m := by
  induction m with
  | nil => cases h
  | cons e rest ih =>
      by_cases h1 : e.fst = k
      · simp only [lookupStr, if_pos h1, Option.some.injEq] at h
        exact ⟨e.fst, by rw [← h]; exact List.mem_cons_self e rest⟩
      · simp only [lookupStr, if_neg h1] at h
        obtain ⟨kk, hk⟩ := ih h
        exact ⟨kk, List.mem_cons_of_mem e hk⟩

theorem getLinks_nil (lid : String) : getLinks [] lid = [] := rfl

theorem mem_getLinks_processRow (xref : List (String × String))
    (m : List (String × List String)) (row : LoadCarRow) (lid x : String) :
    x ∈ getLinks (processLoadCarRow xref m row) lid ↔
      x ∈ getLinks m lid ∨
        (rowLoadId row = some lid ∧ isAffirmative row.is_assigned = true ∧
          rowResolvedCarId xref row = some x) := by
  unfold processLoadCarRow
  cases hrl : rowLoadId row with
  | none => simp
  | some lid' =>
      dsimp only
      cases haff : isAffirmative row.is_assigned with
      | false =>
          rw [if_pos (by simp)]
          simp
      | true =>
          rw [if_neg (by simp)]
          cases hres : rowResolvedCarId xref row with
          | none => simp
          | some c =>
              dsimp only
              by_cases hmem : (getLinks m lid').contains c = true
              · rw [if_pos hmem]
                constructor
                · exact Or.inl
                · rintro (h | ⟨h1, _, h3⟩)
                  · exact h
                  · have hl : lid' = lid := Option.some.injEq _ _ ▸ h1
                    have hc : c = x := Option.some.injEq _ _ ▸ h3
                    rw [← hl, ← hc]
                    exact List.mem_of_elem_eq_true hmem
              · rw [if_neg hmem]
                by_cases hl : lid = lid'
                · subst hl
                  rw [getLinks_setLinks_self]
                  constructor
                  · intro h
                    rcases List.mem_append.mp h with h1 | h1
                    · exact Or.inl h1
                    · refine Or.inr ⟨rfl, rfl, ?_⟩
                      rw [List.mem_singleton.mp h1]
                  · rintro (h | ⟨_, _, h3⟩)
                    · exact List.mem_append.mpr (Or.inl h)
                    · have hc : c = x := Option.some.injEq _ _ ▸ h3
                      exact List.mem_append.mpr (Or.inr (hc ▸ List.mem_singleton_self c))
                · rw [getLinks_setLinks_ne _ _ _ _ hl]
                  constructor
                  · exact Or.inl
                  · rintro (h | ⟨h1, _, _⟩)
                    · exact h
                    · exact absurd (Option.some.injEq _ _ ▸ h1) (fun hh => hl hh.symm)

theorem mem_getLinks_fold (xref : List (String × String)) (rows : List LoadCarRow)
    (m : List (String × List String)) (lid x : String) :
    x ∈ getLinks (rows.foldl (processLoadCarRow xref) m) lid ↔
      x ∈ getLinks m lid ∨
        ∃ row ∈ rows, rowLoadId row = some lid ∧ isAffirmative row.is_assigned = true ∧
          rowResolvedCarId xref row = some x := by
  induction rows generalizing m with
  | nil => simp
  | cons r rest ih =>
      rw [List.foldl_cons, ih, mem_getLinks_processRow]
      constructor
      · rintro ((h | h) | ⟨row, hrow, hp⟩)
        · exact Or.inl h
        · exact Or.inr ⟨r, List.mem_cons_self r rest, h⟩
        · exact Or.inr ⟨row, List.mem_cons_of_mem r hrow, hp⟩
      · rintro (h | ⟨row, hrow, hp⟩)
        · exact Or.inl (Or.inl h)
        · rcases List.mem_cons.mp hrow with h1 | h1
          · exact Or.inl (Or.inr (h1 ▸ hp))
          · exact Or.inr ⟨row, h1, hp⟩

theorem rowResolvedCarId_normalized (xref : List (String × String))
    (hxref : ∀ e ∈ xref, normalizeId (.str e.snd) = some e.snd)
    (row : LoadCarRow) (x : String) (h : rowResolvedCarId xref row = some x) :
    normalizeId (.str x) = some x := by
  unfold rowResolvedCarId at h
  dsimp only at h
  split at h
  · rename_i s hs
    have hx : s = x := Option.some.injEq _ _ ▸ h
    exact hx ▸ normalizeId_idem _ _ hs
  · split at h
    · obtain ⟨kk, hk⟩ := lookupStr_mem _ _ _ h
      exact hxref (kk, x) hk
    · cases h

/-
  Lemmas about the load payload map.
-/

theorem getKey_mapLoad_load_cars (load : Payload) (lc ls sm : Option Int) (now : Int)
    (cmap : List (String × String)) (links : List (String × List String)) :
    getKey (mapLoadSupabaseToAirtable load lc ls sm now cmap links) "load_cars" =
      .arr ((loadCarsValue links (getKey load "id")).map .str) := by
  unfold mapLoadSupabaseToAirtable
  dsimp only
  rw [getKey_deleteKey_ne _ _ _ (by decide)]
  rw [getKey_applyDateOnly_not_mem _ _ _ (by decide)]
  rw [getKey_setKey_self]

theorem hasKey_mapLoad_load_number (load : Payload) (lc ls sm : Option Int) (now : Int)
    (cmap : List (String × String)) (links : List (String × List String)) :
    hasKey (mapLoadSupabaseToAirtable load lc ls sm now cmap links) "load_number" = false := by
  unfold mapLoadSupabaseToAirtable
  dsimp only
  exact hasKey_deleteKey_self _ _

theorem payloadLoadCars_mapLoad (load : Payload) (lc ls sm : Option Int) (now : Int)
    (cmap : List (String × String)) (links : List (String × List String)) :
    payloadLoadCars (mapLoadSupabaseToAirtable load lc ls sm now cmap links) =
      loadCarsValue links (getKey load "id") := by
  unfold payloadLoadCars
  rw [getKey_mapLoad_load_cars]
  dsimp only
  rw [List.filterMap_map]
  exact List.filterMap_some _

theorem getD_match_getLinks (links : List (String × List String)) (lid : String) :
    (match lookupLinks links lid with
      | some l => l
      | none => ([] : List String)) = getLinks links lid := by
  cases h : lookupLinks links lid <;> simp [getLinks, h]

theorem nodup_loadCarsValue (links : List (String × List String)) (v : JVal) :
    (loadCarsValue links v).Nodup :=
  nodup_dedupList _

theorem mem_loadCarsValue_normalized (links : List (String × List String)) (v : JVal)
    (y : String) (hy : y ∈ loadCarsValue links v) : normalizeId (.str y) = some y := by
  unfold loadCarsValue at hy
  dsimp only at hy
  rw [mem_dedupList, List.mem_filter, List.mem_filterMap] at hy
  obtain ⟨⟨z, _, hz⟩, _⟩ := hy
  exact normalizeId_idem _ _ hz

theorem all_loadCarsValue_nonEmpty (links : List (String × List String)) (v : JVal) :
    (loadCarsValue links v).all (fun y => !y.isEmpty) = true := by
  rw [List.all_eq_true]
  intro y hy
  unfold loadCarsValue at hy
  dsimp only at hy
  rw [mem_dedupList, List.mem_filter] at hy
  exact hy.2

theorem all_loadCarsValue_normalized (links : List (String × List String)) (v : JVal) :
    (loadCarsValue links v).all (fun y => decide (normalizeId (.str y) = some y)) = true := by
  rw [List.all_eq_true]
  intro y hy
  exact decide_eq_true (mem_loadCarsValue_normalized links v y hy)

/-
  Lemmas about payload preparation.
-/

theorem getKey_mem (p : Payload) (k : String) (h : hasKey p k = true) :
    (k, getKey p k) ∈ p := by
  induction p with
  | nil => cases h
  | cons e rest ih =>
      by_cases h1 : e.fst = k
      · simp only [getKey, if_pos h1]
        rw [show (k, e.snd) = e from by rw [← h1]]
        exact List.mem_cons_self e rest
      · simp only [hasKey, if_neg h1] at h
        simp only [getKey, if_neg h1]
        exact List.mem_cons_of_mem e (ih h)

theorem mem_setKey (p : Payload) (k : String) (v : JVal) (e : String × JVal)
    (h : e ∈ setKey p k v) : e ∈ p ∨ e = (k, v) := by
  induction p with
  | nil => exact Or.inr (List.mem_singleton.mp h)
  | cons a rest ih =>
      by_cases h1 : a.fst = k
      · rw [setKey, if_pos h1] at h
        rcases List.mem_cons.mp h with h2 | h2
        · exact Or.inr h2
        · exact Or.inl (List.mem_cons_of_mem a h2)
      · rw [setKey, if_neg h1] at h
        rcases List.mem_cons.mp h with h2 | h2
        · exact Or.inl (h2 ▸ List.mem_cons_self a rest)
        · rcases ih h2 with h3 | h3
          · exact Or.inl (List.mem_cons_of_mem a h3)
          · exact Or.inr h3

theorem mem_foldl_norm (fields : List String) (nf rf : List String) (src : Payload)
    (p0 : Payload) (e : String × JVal)
    (h : e ∈ fields.foldl (fun p field =>
        let value := normalizeValue nf rf field (getKey src field)
        if isUndef value then p else setKey p field value) p0) :
    e ∈ p0 ∨ ∃ f, f ∈ fields ∧ e = (f, normalizeValue nf rf f (getKey src f)) := by
  induction fields generalizing p0 with
  | nil => exact Or.inl h
  | cons f rest ih =>
      rw [List.foldl_cons] at h
      rcases ih _ h with h1 | ⟨g, hg1, hg2⟩
      · dsimp only at h1
        by_cases h2 : isUndef (normalizeValue nf rf f (getKey src f))
        · rw [if_pos h2] at h1
          exact Or.inl h1
        · rw [if_neg h2] at h1
          rcases mem_setKey _ _ _ _ h1 with h3 | h3
          · exact Or.inl h3
          · exact Or.inr ⟨f, List.mem_cons_self f rest, h3⟩
      · exact Or.inr ⟨g, List.mem_cons_of_mem f hg1, hg2⟩

theorem normalizeValue_ne_empty_str (nf rf : List String) (f : String) (v : JVal) :
    normalizeValue nf rf f v ≠ .str "" := by
  cases v with
  | undef => simp [normalizeValue]
  | null => simp [normalizeValue]
  | num q => simp [normalizeValue]
  | bool b =>
      simp only [normalizeValue]
      split <;> simp
  | str s =>
      simp only [normalizeValue]
      split
      · split <;> simp
      · split
        · split <;> simp
        · rename_i hne _
          intro hcon
          exact hne (JVal.str.injEq _ _ ▸ hcon)
  | arr xs =>
      simp only [normalizeValue]
      split <;> simp
  | obj fs =>
      simp only [normalizeValue]
      split <;> simp

theorem mapCompany_name_ne_empty (record : Payload) (v : JVal)
    (h : ("name", v) ∈ mapCompanyAirtableToSupabase record) : v ≠ .str "" := by
  unfold mapCompanyAirtableToSupabase at h
  dsimp only at h
  have hbase : ∀ w : JVal, ("name", w) ∈ ([("airtable_id", getKey record "airtable_id")] : Payload) → False := by
    intro w hw
    have hfst : "name" = "airtable_id" := congrArg Prod.fst (List.mem_singleton.mp hw)
    exact absurd hfst (by decide)
  have hmain : ("name", v) ∈
      (COMPANY_FIELDS.foldl (fun p field =>
        let value := normalizeValue COMPANY_NUMERIC_FIELDS COMPANY_REQUIRED_FIELDS field
          (getKey record field)
        if isUndef value then p else setKey p field value)
        ([("airtable_id", getKey record "airtable_id")] : Payload)) → v ≠ .str "" := by
    intro hm
    rcases mem_foldl_norm _ _ _ _ _ _ hm with h1 | ⟨f, _, hf2⟩
    · exact absurd h1 (hbase v)
    · have hfname : f = "name" := (Prod.mk.injEq _ _ _ _ ▸ hf2).1.symm
      have hval : v = normalizeValue COMPANY_NUMERIC_FIELDS COMPANY_REQUIRED_FIELDS f
          (getKey record f) := (Prod.mk.injEq _ _ _ _ ▸ hf2).2
      rw [hval]
      exact normalizeValue_ne_empty_str _ _ _ _
  split at h
  · exact hmain h
  · rcases mem_setKey _ _ _ _ h with h1 | h1
    · exact hmain h1
    · have hfst : "name" = "airtable_id_name_label" := congrArg Prod.fst h1
      exact absurd hfst (by decide)

theorem mem_preparePayload_of_mem (pb : Bool) (al : List String) (payload target : Payload)
    (e : String × JVal) (h : e ∈ preparePayloadForUpdate pb al payload (some target)) :
    e ∈ payload := by
  unfold preparePayloadForUpdate at h
  dsimp only at h
  have h1 := (List.mem_filter.mp h).1
  exact (List.mem_filter.mp h1).1

theorem blank_guard_kept (al : List String) (payload target : Payload) (f : String) (v : JVal)
    (hmem : (f, v) ∈ preparePayloadForUpdate true al payload (some target))
    (hblank : isBlankValue v = true) :
    al.contains f = true ∨ isBlankValue (getKey target f) = true := by
  unfold preparePayloadForUpdate at hmem
  dsimp only at hmem
  have hpred := (List.mem_filter.mp hmem).2
  dsimp only at hpred
  by_cases h1 : jsStrictEq (normalizeValueForComparison v)
      (normalizeValueForComparison (getKey target f)) = true
  · rw [if_pos h1] at hpred
    cases hpred
  · rw [if_neg h1, hblank] at hpred
    rw [if_pos (by rfl)] at hpred
    by_cases hc : al.contains f = true
    · exact Or.inl hc
    · rw [if_neg hc] at hpred
      by_cases hcv : isBlankValue (getKey target f) = true
      · exact Or.inr hcv
      · rw [if_pos (by rw [eq_false_of_ne_true hcv]; rfl)] at hpred
        cases hpred

theorem blank_guard_dropped (al : List String) (payload target : Payload) (f : String)
    (hnd : NodupKeys (removeUndefinedFromPayload payload))
    (hblank : isBlankValue (getKey (removeUndefinedFromPayload payload) f) = true)
    (hal : al.contains f = false) (hcv : isBlankValue (getKey target f) = false) :
    hasKey (preparePayloadForUpdate true al payload (some target)) f = false := by
  rw [← Bool.not_eq_true]
  intro hk
  obtain ⟨v, hv⟩ := (hasKey_iff_exists _ _).mp hk
  have hmemClean : (f, v) ∈ removeUndefinedFromPayload payload := by
    unfold preparePayloadForUpdate at hv
    dsimp only at hv
    exact (List.mem_filter.mp hv).1
  have hval : getKey (removeUndefinedFromPayload payload) f = v :=
    getKey_eq_of_mem_nodup _ _ _ hmemClean hnd
  have hvblank : isBlankValue v = true := by rw [← hval]; exact hblank
  rcases blank_guard_kept al payload target f v hv hvblank with h | h
  · rw [hal] at h; cases h
  · rw [hcv] at h; cases h

theorem getKey_deleteKey_self (p : Payload) (k : String) :
    getKey (deleteKey p k) k = .undef :=
  getKey_eq_undef_of_not_hasKey _ _ (hasKey_deleteKey_self p k)

theorem cleanRequiredNull_aux (l : List String) (p : Payload) (f : String)
    (h : f ∈ l ∨ isNullV (getKey p f) = false) :
    isNullV (getKey (l.foldl (fun p field =>
      if isNullV (getKey p field) then deleteKey p field else p) p) f) = false := by
  induction l generalizing p with
  | nil =>
      rcases h with h | h
      · cases h
      · exact h
  | cons g rest ih =>
      rw [List.foldl_cons]
      by_cases hfg : f = g
      · subst hfg
        apply ih
        right
        by_cases hnull : isNullV (getKey p f) = true
        · rw [if_pos hnull, getKey_deleteKey_self]
          rfl
        · rw [if_neg hnull]
          exact eq_false_of_ne_true hnull
      · rcases h with h | h
        · rcases List.mem_cons.mp h with h1 | h1
          · exact absurd h1 hfg
          · exact ih _ (Or.inl h1)
        · apply ih
          right
          by_cases hnull : isNullV (getKey p g) = true
          · rw [if_pos hnull, getKey_deleteKey_ne _ _ _ hfg]
            exact h
          · rw [if_neg hnull]
            exact h

theorem cleanRequiredNull_not_null (payload : Payload) (required : List String) (f : String)
    (hf : f ∈ required) :
    isNullV (getKey (cleanRequiredNullFields payload required) f) = false :=
  cleanRequiredNull_aux required payload f (Or.inl hf)

/-
  Gate lemmas shared by the conflict-resolution claims.
-/

theorem airtableToSupabaseGate_only_dest_changed (srcLC srcLS dstLC dstLS : Option Int)
    (atTol sbTol : Int) (hsrc : shouldSkipSync srcLC srcLS atTol = true)
    (hdst : shouldSkipSync dstLC dstLS sbTol = false) :
    airtableToSupabaseGate true srcLC srcLS dstLC dstLS atTol sbTol = .skipDestChanged := by
  simp [airtableToSupabaseGate, hsrc, hdst]

theorem supabaseToAirtableGate_only_dest_changed (srcLC srcLS dstLC dstLS : Option Int)
    (sbTol atTol : Int) (hsrc : shouldSkipSync srcLC srcLS sbTol = true)
    (hdst : shouldSkipSync dstLC dstLS atTol = false) :
    supabaseToAirtableGate true srcLC srcLS dstLC dstLS sbTol atTol = .proceed := by
  simp [supabaseToAirtableGate, hsrc, hdst]

/-
  Claims.
-/

/-- Claim C1, counterexample.  The claim states that in both sync
directions an unchanged source paired with a changed target is skipped
without a write.  In the relational-to-sheet direction the gate has no
branch for this case: at this concrete input the Supabase company is
considered unchanged (timestamps equal, within the relational tolerance
of 1000 ms) while the Airtable record is considered changed (one
million ms beyond its last sync against a 60000 ms tolerance), yet the
per-record step proceeds, issues an Airtable write and records the
updated action instead of skipping. -/
theorem claim1_counterexample :
    shouldSkipSync (some 0) (some 0) 1000 = true ∧
    shouldSkipSync (some 1000000) (some 0) 60000 = false ∧
    (companySupabaseToAirtableStep true [] 1000 60000 5000
      [("id", .str "u1"), ("name", .str "NewName")] (some 0) (some 0)
      (some [("airtable_id", .str "recA"), ("name", .str "OldName")])
      (some 1000000) (some 0)).snd = "updated" ∧
    ((companySupabaseToAirtableStep true [] 1000 60000 5000
      [("id", .str "u1"), ("name", .str "NewName")] (some 0) (some 0)
      (some [("airtable_id", .str "recA"), ("name", .str "OldName")])
      (some 1000000) (some 0)).fst.any isAirtableWrite) = true :=
  ⟨rfl, rfl, rfl, rfl⟩

/-- Claim C1, amended.  Only the sheet-to-relational direction skips a
record whose source is unchanged while its target changed: there the
upsert gate answers skipDestChanged (the log says Supabase has changed)
and the per-record step performs no write and reports the record
unchanged.  In the relational-to-sheet direction the gate has no branch
for this case and proceeds. -/
theorem claim1_theorem :
    (∀ (pb : Bool) (al : List String) (atTol sbTol : Int) (record target : Payload)
        (cid : JVal) (srcLC srcLS dstLC dstLS : Option Int),
      shouldSkipSync srcLC srcLS atTol = true →
      shouldSkipSync dstLC dstLS sbTol = false →
      airtableToSupabaseGate true srcLC srcLS dstLC dstLS atTol sbTol = .skipDestChanged ∧
      upsertCompanyFromAirtableStep pb al atTol sbTol record srcLC srcLS (some target)
        dstLC dstLS cid = .ok ([], "unchanged")) ∧
    (∀ (srcLC srcLS dstLC dstLS : Option Int) (sbTol atTol : Int),
      shouldSkipSync srcLC srcLS sbTol = true →
      shouldSkipSync dstLC dstLS atTol = false →
      supabaseToAirtableGate true srcLC srcLS dstLC dstLS sbTol atTol = .proceed) := by
  constructor
  · intro pb al atTol sbTol record target cid srcLC srcLS dstLC dstLS hsrc hdst
    have hgate := airtableToSupabaseGate_only_dest_changed srcLC srcLS dstLC dstLS
      atTol sbTol hsrc hdst
    refine ⟨hgate, ?_⟩
    unfold upsertCompanyFromAirtableStep
    dsimp only
    simp only [Option.isSome_some]
    rw [hgate]
  · intro srcLC srcLS dstLC dstLS sbTol atTol hsrc hdst
    exact supabaseToAirtableGate_only_dest_changed srcLC srcLS dstLC dstLS sbTol atTol hsrc hdst

/-- Claim C1, witness: the amended theorem applied at the concrete
timestamps of the counterexample scenario, on the sheet-to-relational
side. -/
theorem claim1_witness :
    upsertCompanyFromAirtableStep true [] 60000 1000
      [("airtable_id", .str "recA")] (some 0) (some 0)
      (some [("id", .str "u1")]) (some 1000000) (some 0) (.str "u1") =
      .ok ([], "unchanged") ∧
    supabaseToAirtableGate true (some 0) (some 0) (some 1000000) (some 0) 1000 60000 =
      .proceed :=
  ⟨(claim1_theorem.1 true [] 60000 1000 [("airtable_id", .str "recA")] [("id", .str "u1")]
      (.str "u1") (some 0) (some 0) (some 1000000) (some 0) (by decide) (by decide)).2,
    claim1_theorem.2 (some 0) (some 0) (some 1000000) (some 0) 1000 60000
      (by decide) (by decide)⟩

/-- Claim C2, counterexample.  The claim states that in both directions
the both-changed tiebreak uses the sheet tolerance as the equality
epsilon.  At this input both sides are considered changed and the two
last-changed timestamps differ by 10000 ms, within the sheet tolerance
of 60000 ms, so under the claim the comparison is a tie and the engine
proceeds; the relational-to-sheet gate nevertheless skips, because it
compares with the default tolerance of zero. -/
theorem claim2_counterexample :
    shouldSkipSync (some 100000) (some 0) 1000 = false ∧
    shouldSkipSync (some 110000) (some 0) 60000 = false ∧
    compareTimestamps (some 100000) (some 110000) 60000 = .equal ∧
    supabaseToAirtableGate true (some 100000) (some 0) (some 110000) (some 0) 1000 60000 =
      .skipDestNewer := by
  refine ⟨rfl, rfl, ?_, ?_⟩ <;> decide

/-- Claim C2, amended.  In the both-changed case the sheet-to-relational
direction compares the two last-changed timestamps with the sheet
(Airtable) tolerance as epsilon, skipping exactly when the destination
is newer by more than that epsilon; the relational-to-sheet direction
compares with an epsilon of zero, so the destination being newer by any
positive amount causes a skip and only an exact tie proceeds with the
source winning. -/
theorem claim2_theorem :
    (∀ (srcLC srcLS dstLC dstLS : Option Int) (atTol sbTol : Int),
      shouldSkipSync srcLC srcLS atTol = false →
      shouldSkipSync dstLC dstLS sbTol = false →
      airtableToSupabaseGate true srcLC srcLS dstLC dstLS atTol sbTol =
        (if compareTimestamps srcLC dstLC atTol = .destNewer then .skipDestNewer
         else .proceed)) ∧
    (∀ (srcLC srcLS dstLC dstLS : Option Int) (sbTol atTol : Int),
      shouldSkipSync srcLC srcLS sbTol = false →
      shouldSkipSync dstLC dstLS atTol = false →
      supabaseToAirtableGate true srcLC srcLS dstLC dstLS sbTol atTol =
        (if compareTimestamps srcLC dstLC 0 = .destNewer then .skipDestNewer
         else .proceed)) := by
  constructor
  · intro srcLC srcLS dstLC dstLS atTol sbTol hsrc hdst
    simp [airtableToSupabaseGate, hsrc, hdst]
  · intro srcLC srcLS dstLC dstLS sbTol atTol hsrc hdst
    simp [supabaseToAirtableGate, hsrc, hdst]

/-- Claim C2, witness: the amended theorem applied at the concrete
timestamps of scenario S2, in both directions. -/
theorem claim2_witness :
    airtableToSupabaseGate true (some 110000) (some 0) (some 100000) (some 0) 60000 1000 =
      .proceed ∧
    supabaseToAirtableGate true (some 100000) (some 0) (some 110000) (some 0) 1000 60000 =
      .skipDestNewer := by
  constructor
  · have h := claim2_theorem.1 (some 110000) (some 0) (some 100000) (some 0) 60000 1000
      (by decide) (by decide)
    rw [h]
    decide
  · have h := claim2_theorem.2 (some 100000) (some 0) (some 110000) (some 0) 1000 60000
      (by decide) (by decide)
    rw [h]
    decide

/-- Claim C3, counterexample.  The claim states that the marker rule
applies in both sync directions.  In the sheet-to-relational direction
no branch of the per-record upsert ever stamps last_synced on the
Airtable source record: at this concrete input the propagation
succeeds (one Supabase update plus one Airtable back-link write,
action updated), and no Airtable write carries a last_synced key. -/
theorem claim3_counterexample :
    (upsertCompanyFromAirtableStep true [] 60000 1000
      [("airtable_id", .str "recA"), ("name", .str "NewName"), ("supabase_id", .str "u1")]
      (some 1000000) (some 0)
      (some [("id", .str "u1"), ("name", .str "OldName")]) (some 0) (some 0)
      (.str "u1")).toOption.map
        (fun pr => (pr.fst.any stampsAirtableLastSynced, pr.fst.length, pr.snd)) =
      some (false, 1, "updated") :=
  rfl

/-- Claim C3, amended.  Only the relational-to-sheet direction stamps
last_synced on the source after a successful propagation: whenever the
gate proceeds, the final write of the per-record step is the Supabase
update carrying the resolved marker, and with both timestamps present
the marker is the last-changed value when it is strictly newer than the
previous last_synced and the current time otherwise.  The
sheet-to-relational direction never stamps the sheet source: for every
input of the per-record upsert whose outcome is not a thrown error, no
write of its trace stamps last_synced on the Airtable side. -/
theorem claim3_theorem (pb : Bool) (al : List String) (sbTol atTol now : Int)
    (company : Payload) (lc ls : Option Int) (existing : Option Payload)
    (elc els : Option Int)
    (hgate : supabaseToAirtableGate existing.isSome lc ls elc els sbTol atTol = .proceed) :
    (companySupabaseToAirtableStep pb al sbTol atTol now company lc ls existing
        elc els).fst.getLast? =
      some (SyncWrite.supabaseUpdate
        [("last_synced", .str (toISOString (resolveSyncMarker lc ls now)))]) ∧
    (∀ c s, lc = some c → ls = some s →
      resolveSyncMarker lc ls now = if c > s then c else now) ∧
    (∀ (pb2 : Bool) (al2 : List String) (atTol2 sbTol2 : Int) (record : Payload)
        (recordLC recordLS : Option Int) (target : Option Payload)
        (targetLC targetLS : Option Int) (cid : JVal) (pr : List SyncWrite × String),
      upsertCompanyFromAirtableStep pb2 al2 atTol2 sbTol2 record recordLC recordLS
        target targetLC targetLS cid = .ok pr →
      pr.fst.any stampsAirtableLastSynced = false) := by
  refine ⟨?_, ?_, ?_⟩
  · unfold companySupabaseToAirtableStep
    dsimp only
    rw [hgate]
    cases existing with
    | some ex =>
        dsimp only
        exact List.getLast?_concat _
    | none => rfl
  · rintro c s rfl rfl
    rfl
  · intro pb2 al2 atTol2 sbTol2 record recordLC recordLS target targetLC targetLS cid pr h
    unfold upsertCompanyFromAirtableStep at h
    dsimp only at h
    split at h
    · injection h with h1
      rw [← h1]
      rfl
    · injection h with h1
      rw [← h1]
      rfl
    · injection h with h1
      rw [← h1]
      rfl
    · split at h
      · injection h with h1
        rw [← h1]
        dsimp only
        split <;> split <;> rfl
      · split at h
        · exact Except.noConfusion h
        · split at h
          · injection h with h1
            rw [← h1]
            rfl
          · injection h with h1
            rw [← h1]
            rfl

/-- Claim C3, witness: the amended theorem applied at a concrete
proceeding record without a target (create path), with the marker
resolving to the last-changed timestamp because it is newer than the
previous last_synced; the never-stamps clause applied at a concrete
successful sheet-to-relational update. -/
theorem claim3_witness :
    (companySupabaseToAirtableStep true [] 1000 60000 5000
      [("id", .str "u1")] (some 10000) (some 0) none none none).fst.getLast? =
      some (SyncWrite.supabaseUpdate
        [("last_synced", .str (toISOString (resolveSyncMarker (some 10000) (some 0) 5000)))]) ∧
    resolveSyncMarker (some 10000) (some 0) 5000 = 10000 ∧
    ((upsertCompanyFromAirtableStep true [] 60000 1000
      [("airtable_id", .str "recA"), ("name", .str "NewName"), ("supabase_id", .str "u1")]
      (some 1000000) (some 0)
      (some [("id", .str "u1"), ("name", .str "OldName")]) (some 0) (some 0)
      (.str "u1")).toOption.map (fun pr => pr.fst.any stampsAirtableLastSynced)) =
      some false := by
  have h := claim3_theorem true [] 1000 60000 5000 [("id", .str "u1")]
    (some 10000) (some 0) none none none (by decide)
  refine ⟨h.1, ?_, ?_⟩
  · rw [h.2.1 10000 0 rfl rfl]
    decide
  · have h3 := h.2.2 true [] 60000 1000
      [("airtable_id", .str "recA"), ("name", .str "NewName"), ("supabase_id", .str "u1")]
      (some 1000000) (some 0)
      (some [("id", .str "u1"), ("name", .str "OldName")]) (some 0) (some 0)
      (.str "u1") _ rfl
    exact congrArg some h3

/-- Claim C4: with preventBlankOverwrite enabled, a blank candidate
value survives into the prepared update payload only when the field is
allowlisted or the current target value is itself blank, and is dropped
whenever neither holds. -/
theorem claim4_theorem (al : List String) (payload target : Payload) (f : String)
    (hnd : NodupKeys (removeUndefinedFromPayload payload))
    (hblank : isBlankValue (getKey (removeUndefinedFromPayload payload) f) = true) :
    (hasKey (preparePayloadForUpdate true al payload (some target)) f = true →
      al.contains f = true ∨ isBlankValue (getKey target f) = true) ∧
    (al.contains f = false → isBlankValue (getKey target f) = false →
      hasKey (preparePayloadForUpdate true al payload (some target)) f = false) := by
  constructor
  · intro hk
    have hmem := getKey_mem _ _ hk
    have hmemClean : (f, getKey (preparePayloadForUpdate true al payload (some target)) f) ∈
        removeUndefinedFromPayload payload := by
      unfold preparePayloadForUpdate at hmem
      dsimp only at hmem
      exact (List.mem_filter.mp hmem).1
    have hval := getKey_eq_of_mem_nodup _ _ _ hmemClean hnd
    exact blank_guard_kept al payload target f _ hmem (hval ▸ hblank)
  · exact blank_guard_dropped al payload target f hnd hblank

/-- Claim C4, witness: scenario S4.  An empty special_instructions
value against a non-blank target value is dropped from the update
payload under the default rules. -/
theorem claim4_witness :
    isBlankValue (getKey (removeUndefinedFromPayload
      [("special_instructions", JVal.str "")]) "special_instructions") = true ∧
    isBlankValue (getKey [("special_instructions", JVal.str "handle with care")]
      "special_instructions") = false ∧
    hasKey (preparePayloadForUpdate true [] [("special_instructions", JVal.str "")]
      (some [("special_instructions", JVal.str "handle with care")]))
      "special_instructions" = false := by
  refine ⟨rfl, rfl, ?_⟩
  exact (claim4_theorem [] [("special_instructions", JVal.str "")]
    [("special_instructions", JVal.str "handle with care")] "special_instructions"
    (by unfold NodupKeys; decide) rfl).2 rfl rfl

/-- Claim C5: the load_cars list emitted for a load contains exactly
the sheet car ids resolved from the join rows of that load whose
is_assigned value is affirmative, where a row resolves preferentially
through its embedded airtable car id and otherwise through the car
cross-ref lookup, and rows failing both contribute nothing.  The
hypothesis states that the cross-ref stores normalized ids, which the
engine guarantees by construction of the index. -/
theorem claim5_theorem (load : Payload) (lc ls sm : Option Int) (now : Int)
    (cmap xref : List (String × String)) (rows : List LoadCarRow) (x : String)
    (hxref : ∀ e ∈ xref, normalizeId (.str e.snd) = some e.snd) :
    x ∈ payloadLoadCars (mapLoadSupabaseToAirtable load lc ls sm now cmap
        (buildLoadCarLinks rows xref)) ↔
      ∃ row ∈ rows, ∃ lid, normalizeId (getKey load "id") = some lid ∧
        rowLoadId row = some lid ∧ isAffirmative row.is_assigned = true ∧
        rowResolvedCarId xref row = some x := by
  rw [payloadLoadCars_mapLoad]
  unfold loadCarsValue
  dsimp only
  cases hn : normalizeId (getKey load "id") with
  | none => simp [dedupList]
  | some lid =>
      dsimp only
      rw [getD_match_getLinks]
      rw [mem_dedupList, List.mem_filter, List.mem_filterMap]
      unfold buildLoadCarLinks
      constructor
      · rintro ⟨⟨y, hy, hnorm⟩, _⟩
        rcases (mem_getLinks_fold xref rows [] lid y).mp hy with h0 | ⟨row, hrow, hp1, hp2, hp3⟩
        · rw [getLinks_nil] at h0
          cases h0
        · have hyn := rowResolvedCarId_normalized xref hxref row y hp3
          have hxy : y = x := by
            rw [hyn] at hnorm
            exact Option.some.injEq _ _ ▸ hnorm
          subst hxy
          exact ⟨row, hrow, lid, rfl, hp1, hp2, hp3⟩
      · rintro ⟨row, hrow, lid0, hlid0, hp1, hp2, hp3⟩
        have hl : lid0 = lid := (Option.some.injEq _ _ ▸ hlid0).symm
        subst hl
        have hx := (mem_getLinks_fold xref rows [] lid0 x).mpr
          (Or.inr ⟨row, hrow, hp1, hp2, hp3⟩)
        have hxn := rowResolvedCarId_normalized xref hxref row x hp3
        have hne : x ≠ "" := (normalizeId_str_trim x x hxn).2
        refine ⟨⟨x, hx, hxn⟩, ?_⟩
        show (!x.isEmpty) = true
        rw [Bool.not_eq_true']
        exact Bool.eq_false_iff.mpr (fun hcon => hne ((String.isEmpty_iff x).mp hcon))

/-- Claim C5, witness: scenario S5.  Load L has two join rows, one
assigned to car C1 (with sheet twin recC1) and one unassigned to car
C2; the emitted load_cars list contains recC1. -/
theorem claim5_witness :
    "recC1" ∈ payloadLoadCars (mapLoadSupabaseToAirtable
      [("id", .str "L"), ("load_number", .str "LN-1")] (some 0) (some 0) (some 0) 5 []
      (buildLoadCarLinks
        [⟨.str "L", .undef, .bool true, .undef, .undef, .undef, .str "C1", .undef⟩,
         ⟨.str "L", .undef, .bool false, .undef, .undef, .undef, .str "C2", .undef⟩]
        [("C1", "recC1"), ("C2", "recC2")])) := by
  refine (claim5_theorem [("id", .str "L"), ("load_number", .str "LN-1")]
    (some 0) (some 0) (some 0) 5 [] [("C1", "recC1"), ("C2", "recC2")]
    [⟨.str "L", .undef, .bool true, .undef, .undef, .undef, .str "C1", .undef⟩,
     ⟨.str "L", .undef, .bool false, .undef, .undef, .undef, .str "C2", .undef⟩]
    "recC1" (by decide)).mpr ?_
  refine ⟨⟨.str "L", .undef, .bool true, .undef, .undef, .undef, .str "C1", .undef⟩,
    List.mem_cons_self _ _, "L", by decide, by decide, rfl, by decide⟩

/-- Claim C6: in every relational-to-sheet load payload the load_number
key is absent after the mapping pass, and the load_cars value is the
deduplicated list built from the load-to-cars index, every entry of
which is a non-empty normalized record id string. -/
theorem claim6_theorem (load : Payload) (lc ls sm : Option Int) (now : Int)
    (cmap : List (String × String)) (links : List (String × List String)) :
    hasKey (mapLoadSupabaseToAirtable load lc ls sm now cmap links) "load_number" = false ∧
    getKey (mapLoadSupabaseToAirtable load lc ls sm now cmap links) "load_cars" =
      .arr ((loadCarsValue links (getKey load "id")).map .str) ∧
    (loadCarsValue links (getKey load "id")).Nodup ∧
    (loadCarsValue links (getKey load "id")).all (fun y => !y.isEmpty) = true ∧
    (loadCarsValue links (getKey load "id")).all
      (fun y => decide (normalizeId (.str y) = some y)) = true :=
  ⟨hasKey_mapLoad_load_number load lc ls sm now cmap links,
   getKey_mapLoad_load_cars load lc ls sm now cmap links,
   nodup_loadCarsValue links (getKey load "id"),
   all_loadCarsValue_nonEmpty links (getKey load "id"),
   all_loadCarsValue_normalized links (getKey load "id")⟩

/-- Claim C7, counterexample.  The claim states that no prepared update
payload carries a required field as null or the empty string.  At this
concrete input the Airtable company has name null and the paired
Supabase company has a blank (whitespace) name; both sides pass the
conflict gate, and the resulting Supabase update payload carries
name with the value null: the first write of the step binds name to
null (the second write is the supabase_id back-link). -/
theorem claim7_counterexample :
    "name" ∈ COMPANY_REQUIRED_FIELDS ∧
    (upsertCompanyFromAirtableStep true [] 60000 1000
      [("airtable_id", .str "recA"), ("name", .null)] (some 1000000) (some 0)
      (some [("id", .str "u1"), ("name", .str " ")]) (some 0) (some 0)
      (.str "u1")).toOption.map
        (fun pr => (getKey (writePayload (pr.fst.headD (SyncWrite.airtableUpdate [])))
          "name", pr.snd)) =
      some (JVal.null, "updated") :=
  ⟨by decide, rfl⟩

/-- Claim C7, amended.  A required field is never emitted as the empty
string (normalization maps empty required strings to an omitted key and
trims every kept string).  Under the default rules a required company
field can be emitted as null only when the current target value is
itself blank; and the car sheet-to-relational path strips null required
fields from its payload entirely. -/
theorem claim7_theorem :
    (∀ (pb : Bool) (al : List String) (record target : Payload),
      getKey (preparePayloadForUpdate pb al (mapCompanyAirtableToSupabase record)
        (some target)) "name" ≠ .str "") ∧
    (∀ (record target : Payload),
      getKey (preparePayloadForUpdate true [] (mapCompanyAirtableToSupabase record)
        (some target)) "name" = .null →
      isBlankValue (getKey target "name") = true) ∧
    (∀ (payload : Payload) (f : String), f ∈ CAR_REQUIRED_FIELDS →
      isNullV (getKey (cleanRequiredNullFields payload CAR_REQUIRED_FIELDS) f) = false) := by
  refine ⟨?_, ?_, ?_⟩
  · intro pb al record target hcon
    have hk : hasKey (preparePayloadForUpdate pb al (mapCompanyAirtableToSupabase record)
        (some target)) "name" = true := by
      by_contra hk
      have hu := getKey_eq_undef_of_not_hasKey _ _ (eq_false_of_ne_true hk)
      rw [hu] at hcon
      exact JVal.noConfusion hcon
    have hmem := getKey_mem _ _ hk
    rw [hcon] at hmem
    have hpay := mem_preparePayload_of_mem _ _ _ _ _ hmem
    exact mapCompany_name_ne_empty record _ hpay rfl
  · intro record target hnull
    have hk : hasKey (preparePayloadForUpdate true [] (mapCompanyAirtableToSupabase record)
        (some target)) "name" = true := by
      by_contra hk
      have hu := getKey_eq_undef_of_not_hasKey _ _ (eq_false_of_ne_true hk)
      rw [hu] at hnull
      exact JVal.noConfusion hnull
    have hmem := getKey_mem _ _ hk
    rw [hnull] at hmem
    rcases blank_guard_kept [] _ target "name" .null hmem rfl with h | h
    · cases h
    · exact h
  · intro payload f hf
    exact cleanRequiredNull_not_null payload CAR_REQUIRED_FIELDS f hf

/-- Claim C7, witness: the amended theorem applied to the
counterexample record (the blank target admits the null) and to a car
payload with a null make. -/
theorem claim7_witness :
    isBlankValue (getKey [("name", JVal.str " ")] "name") = true ∧
    isNullV (getKey (cleanRequiredNullFields [("make", JVal.null)] CAR_REQUIRED_FIELDS)
      "make") = false :=
  ⟨claim7_theorem.2.1 [("airtable_id", .str "recA"), ("name", .null)]
      [("name", .str " ")] rfl,
   claim7_theorem.2.2 [("make", JVal.null)] "make" (by decide)⟩

/-- Claim C8, counterexample.  The claim states that every date-only
field in a sheet-bound payload matches the date pattern.  An
unparseable value is left untouched by the formatting pass and fails
the pattern. -/
theorem claim8_counterexample :
    hasKey (applyDateOnlyFormatting [("pick_up_date", JVal.str "hello")]
      CAR_DATE_ONLY_FIELDS) "pick_up_date" = true ∧
    getKey (applyDateOnlyFormatting [("pick_up_date", JVal.str "hello")]
      CAR_DATE_ONLY_FIELDS) "pick_up_date" = .str "hello" ∧
    matchesDatePattern "hello" = false :=
  ⟨rfl, rfl, rfl⟩

/-- Claim C8, amended.  Every value the date formatter produces matches
the date pattern, and the formatting pass either leaves a field exactly
as it was (null, empty, absent or unparseable values) or replaces it
with a string matching the pattern. -/
theorem claim8_theorem :
    (∀ (v : JVal) (s : String), formatDateForAirtable v false = some s →
      matchesDatePattern s = true) ∧
    (∀ (p : Payload) (fields : List String) (k : String),
      getKey (applyDateOnlyFormatting p fields) k = getKey p k ∨
      ∃ s, getKey (applyDateOnlyFormatting p fields) k = .str s ∧
        matchesDatePattern s = true) :=
  ⟨formatDate_dateOnly_matches, getKey_applyDateOnlyFormatting⟩

/-- Claim C8, witness: a parseable timestamp reformats to a pattern
match, observed on the load created_at field. -/
theorem claim8_witness :
    matchesDatePattern "2024-03-05" = true ∧
    (getKey (applyDateOnlyFormatting [("created_at", JVal.str "2024-03-05T10:00:00Z")]
        LOAD_DATE_ONLY_FIELDS) "created_at" =
      getKey [("created_at", JVal.str "2024-03-05T10:00:00Z")] "created_at" ∨
      ∃ s, getKey (applyDateOnlyFormatting [("created_at", JVal.str "2024-03-05T10:00:00Z")]
        LOAD_DATE_ONLY_FIELDS) "created_at" = .str s ∧ matchesDatePattern s = true) :=
  ⟨claim8_theorem.1 (JVal.str "2024-03-05T10:00:00Z") "2024-03-05" rfl,
   claim8_theorem.2 [("created_at", JVal.str "2024-03-05T10:00:00Z")]
     LOAD_DATE_ONLY_FIELDS "created_at"⟩

/-- Claim C9: failures to create or update the sync_run row never
change the outcome of a tracked run (the result is exactly the entity
sync outcome for every combination of row-creation and row-update
success), and when the sync function throws with a row open, the event
trace shows the finishing update attempt strictly before the
re-throw. -/
theorem claim9_theorem (createOk updateOk : Bool) (syncOutcome : Except String SyncStats) :
    (runSyncWithTracking createOk syncOutcome updateOk).snd = syncOutcome ∧
    (createOk = true → ∀ e, syncOutcome = .error e →
      (runSyncWithTracking createOk syncOutcome updateOk).fst =
        [.createRunAttempt, .entitySyncCall, .updateRunAttempt, .rethrowError]) := by
  constructor
  · cases syncOutcome <;> rfl
  · rintro rfl e rfl
    rfl

/-- Claim C9, witness: a throwing sync function with a successfully
opened run row and a failing finishing update still re-throws the
original error, after the update attempt. -/
theorem claim9_witness :
    (runSyncWithTracking true (.error "boom") false).snd = .error "boom" ∧
    (runSyncWithTracking true (.error "boom") false).fst =
      [.createRunAttempt, .entitySyncCall, .updateRunAttempt, .rethrowError] :=
  ⟨(claim9_theorem true false (.error "boom")).1,
   (claim9_theorem true false (.error "boom")).2 rfl "boom" rfl⟩

theorem applyOutcome_preserves (stats : SyncStats) (o : RecordOutcome)
    (h : stats.processed = stats.created + stats.updated + stats.unchanged) :
    (applyOutcome stats o).processed = (applyOutcome stats o).created +
      (applyOutcome stats o).updated + (applyOutcome stats o).unchanged := by
  cases o with
  | exception => simpa [applyOutcome] using h
  | result r =>
      cases r with
      | none => simpa [applyOutcome, applySyncResult] using h
      | some rr =>
          simp only [applyOutcome, applySyncResult]
          repeat' split
          all_goals simp_all
          all_goals omega

theorem foldl_outcome_invariant (outs : List RecordOutcome) (stats : SyncStats)
    (h : stats.processed = stats.created + stats.updated + stats.unchanged) :
    (outs.foldl applyOutcome stats).processed =
      (outs.foldl applyOutcome stats).created + (outs.foldl applyOutcome stats).updated +
        (outs.foldl applyOutcome stats).unchanged := by
  induction outs generalizing stats with
  | nil => exact h
  | cons o rest ih =>
      rw [List.foldl_cons]
      exact ih _ (applyOutcome_preserves stats o h)

/-- Claim C10: for every sequence of per-record outcomes applied to the
freshly initialized statistics, the processed counter equals the sum of
the created, updated and unchanged counters (skipped outcomes touch
only the skipped counter and exceptions only the errors counter). -/
theorem claim10_theorem (outcomes : List RecordOutcome) :
    (runOutcomes outcomes).processed =
      (runOutcomes outcomes).created + (runOutcomes outcomes).updated +
        (runOutcomes outcomes).unchanged :=
  foldl_outcome_invariant outcomes initStats rfl

end Willydrop
